import Mathlib

/-!
# Verification of the AICHAT native color-quantization engine

This file is a shallow embedding, in Lean 4, of the C sources under
`src/native/src` (`image.c`, `dbscan.c`, `hybrid.c`, `kmeans.c`,
`distance.c`, `random.h`), together with theorems settling the frozen
claims about them.

Modelling conventions:

* C `float`/`double` arithmetic is idealized as exact arithmetic over `ℚ`.
  Float literals are modelled by their mathematical value (e.g. the C
  constant `255.0f / 127.0f` becomes `255 / 127 : ℚ`).  All claims settled
  here concern branch structure, clamping, labelling and packing logic
  whose outcomes are insensitive to float rounding at the inputs used.
* C arrays that are mutated in place are modelled as total functions
  `ℕ → _` updated pointwise, or as Lean lists/arrays where the C code only
  ever appends or reads.
* C `(int)` casts of nonnegative float expressions are truncation toward
  zero, modelled by `ratTrunc`.
* The C `while` loop of the DBSCAN cluster expansion is modelled with an
  explicit fuel parameter.  Fuel `2*n + 1` strictly exceeds the number of
  possible pops: every point is enqueued at most once per expansion (the
  `in_queue` bitmap in `dbscan.c`, the `-3` QUEUED label in `hybrid.c`),
  so at most `n` pops can ever occur.  All theorems proved about the
  expansion are step invariants that hold for every fuel value, so they
  are true of the C execution independently of this bound.
* OpenMP-parallel loops compute each element independently; they are
  modelled as maps.  The AVX2/SSE variants of the nearest-neighbour scans
  (guarded by `#ifdef` in the C source) are not modelled; the portable
  scalar code paths are.
* `calloc`/`malloc` are assumed to succeed (the `!lut` early returns in
  `image.c` are not modelled).
-/

/-- Update a function modelling a C array at one index. -/
def updf {α : Type} (f : ℕ → α) (i : ℕ) (v : α) : ℕ → α :=
  fun j => if j = i then v else f j

/-- `ColorPoint3f` from `common.h`: three float components, modelled over `ℚ`. -/
structure ColorPoint3f where
  c1 : ℚ
  c2 : ℚ
  c3 : ℚ
deriving DecidableEq, Repr, Inhabited

/-- `distance_squared` from `distance.c` (also inlined as
`point_distance_sq` in `hybrid.c` and in the grid range query of
`dbscan.c`): squared Euclidean distance. -/
def distance_squared (a b : ColorPoint3f) : ℚ :=
  let d1 := a.c1 - b.c1
  let d2 := a.c2 - b.c2
  let d3 := a.c3 - b.c3
  d1 * d1 + d2 * d2 + d3 * d3

/-- `perceptual_distance_sq` from `image.c`: perceptually weighted squared
distance.  Weights depend on the average red component. -/
def perceptual_distance_sq (a b : ColorPoint3f) : ℚ :=
  let dr := a.c1 - b.c1
  let dg := a.c2 - b.c2
  let db := a.c3 - b.c3
  let avg_r := (a.c1 + b.c1) / 2
  let wr : ℚ := if avg_r < 128 then 2 else 3
  let wg : ℚ := 4
  let wb : ℚ := if avg_r < 128 then 3 else 2
  wr * dr * dr + wg * dg * dg + wb * db * db

/-- One step of the nearest-palette-entry scan of
`find_nearest_perceptual`: keep the running (index, distance) pair unless
entry `i` is strictly closer. -/
def fnpStep (point : ColorPoint3f) (palette : List ColorPoint3f)
    (st : ℕ × ℚ) (i : ℕ) : ℕ × ℚ :=
  let dist := perceptual_distance_sq point (palette.getD i default)
  if dist < st.2 then (i, dist) else st

/-- `find_nearest_perceptual` from `image.c` (scalar path): linear scan
initialized with entry 0 and running over `i = 1 .. k-1`, strict
improvement, so the lowest index wins ties.  C indexes `palette[i]` for
`i < k`; out-of-range reads (`k` larger than the palette, undefined
behaviour in C) are modelled by `getD` with a default entry. -/
def find_nearest_perceptual (point : ColorPoint3f) (palette : List ColorPoint3f)
    (k : ℕ) : ℕ :=
  ((List.range' 1 (k - 1)).foldl (fnpStep point palette)
    (0, perceptual_distance_sq point (palette.getD 0 default))).1

/-- Truncation toward zero, the semantics of C's `(int)` cast on a float
value (modelled on `ℚ`). -/
def ratTrunc (q : ℚ) : ℤ :=
  if 0 ≤ q then ⌊q⌋ else ⌈q⌉

/-- The clamp `r < 0 ? 0 : (r > 255 ? 255 : r)` from `resynthesize_image`. -/
def clamp255 (x : ℤ) : ℤ :=
  if x < 0 then 0 else if 255 < x then 255 else x

/-- Packing `(r << 16) | (g << 8) | b` (as written in `image.c`, including
its left-to-right association).  Channels are `ℕ`; the C code reaches this
expression with nonnegative ints in all defined executions. -/
def pack_pixel (r g b : ℕ) : ℕ :=
  ((r <<< 16) ||| (g <<< 8)) ||| b

/-- Red channel `(pixel >> 16) & 0xFF` of a packed 32-bit pixel word. -/
def chanR (pixel : ℕ) : ℕ := (pixel >>> 16) % 256

/-- Green channel `(pixel >> 8) & 0xFF`. -/
def chanG (pixel : ℕ) : ℕ := (pixel >>> 8) % 256

/-- Blue channel `pixel & 0xFF`. -/
def chanB (pixel : ℕ) : ℕ := pixel % 256

/-- Pixel unpacking used at the head of both remap loops in `image.c`. -/
def extractPoint (pixel : ℕ) : ColorPoint3f :=
  ⟨(chanR pixel : ℚ), (chanG pixel : ℚ), (chanB pixel : ℚ)⟩

/-- `LUT_SCALE = 255.0f / (LUT_DIM - 1)` with `LUT_DIM = 128` (`image.c`). -/
def LUT_SCALE : ℚ := 255 / 127

/-- One entry of the 3-D palette LUT built identically by
`resynthesize_image` and `posterize_image`: the nearest palette index for
the grid point `(ri, gi, bi) * LUT_SCALE`.  The C code materializes the
whole `128³` table; since every entry is this pure function of the target
palette, the table is modelled by the function itself. -/
def lut_entry (target_palette : List ColorPoint3f) (k : ℕ) (ri gi bi : ℕ) : ℕ :=
  find_nearest_perceptual ⟨ri * LUT_SCALE, gi * LUT_SCALE, bi * LUT_SCALE⟩
    target_palette k

/-- The palette index selected for a pixel by both remap functions of
`image.c`: for `palette_size > 4096` a direct nearest-neighbour scan on
the exact pixel color, otherwise a LUT lookup at the pixel's channels
right-shifted by `SHIFT = 1`. -/
def palette_select (target_palette : List ColorPoint3f) (k : ℕ) (pixel : ℕ) : ℕ :=
  if 4096 < k then
    find_nearest_perceptual (extractPoint pixel) target_palette k
  else
    lut_entry target_palette k (chanR pixel >>> 1) (chanG pixel >>> 1)
      (chanB pixel >>> 1)

/-- Red output channel of `resynthesize_image` for one pixel:
`(int)(source->c1 + (point.c1 - target->c1) + 0.5f)` then clamped. -/
def resynthR (target_palette source_palette : List ColorPoint3f) (k : ℕ)
    (pixel : ℕ) : ℕ :=
  let idx := palette_select target_palette k pixel
  let t := target_palette.getD idx default
  let s := source_palette.getD idx default
  (clamp255 (ratTrunc (s.c1 + ((chanR pixel : ℚ) - t.c1) + 1/2))).toNat

/-- Green output channel of `resynthesize_image` for one pixel. -/
def resynthG (target_palette source_palette : List ColorPoint3f) (k : ℕ)
    (pixel : ℕ) : ℕ :=
  let idx := palette_select target_palette k pixel
  let t := target_palette.getD idx default
  let s := source_palette.getD idx default
  (clamp255 (ratTrunc (s.c2 + ((chanG pixel : ℚ) - t.c2) + 1/2))).toNat

/-- Blue output channel of `resynthesize_image` for one pixel. -/
def resynthB (target_palette source_palette : List ColorPoint3f) (k : ℕ)
    (pixel : ℕ) : ℕ :=
  let idx := palette_select target_palette k pixel
  let t := target_palette.getD idx default
  let s := source_palette.getD idx default
  (clamp255 (ratTrunc (s.c3 + ((chanB pixel : ℚ) - t.c3) + 1/2))).toNat

/-- The output pixel word of `resynthesize_image` for one input pixel
(both the direct and the LUT code path run exactly this computation; they
differ only inside `palette_select`). -/
def resynthesize_pixel (target_palette source_palette : List ColorPoint3f)
    (k : ℕ) (pixel : ℕ) : ℕ :=
  pack_pixel (resynthR target_palette source_palette k pixel)
    (resynthG target_palette source_palette k pixel)
    (resynthB target_palette source_palette k pixel)

/-- `resynthesize_image` from `image.c`: per-pixel palette remap keeping
the residual.  `n = width * height` pixels are read from the input buffer
and written to the output. -/
def resynthesize_image (image_pixels : List ℕ) (width height : ℕ)
    (target_palette source_palette : List ColorPoint3f) (palette_size : ℕ) :
    List ℕ :=
  (List.range (width * height)).map
    (fun i => resynthesize_pixel target_palette source_palette palette_size
      (image_pixels.getD i 0))

/-- The output pixel word of `posterize_image` for one input pixel:
`(int)(source->c + 0.5f)` per channel, packed with NO clamping (unlike
`resynthesize_image`).  `Int.toNat` stands for the C shift of the int
result, which is well defined only for nonnegative channel values. -/
def posterize_pixel (target_palette source_palette : List ColorPoint3f)
    (k : ℕ) (pixel : ℕ) : ℕ :=
  let idx := palette_select target_palette k pixel
  let s := source_palette.getD idx default
  pack_pixel (ratTrunc (s.c1 + 1/2)).toNat (ratTrunc (s.c2 + 1/2)).toNat
    (ratTrunc (s.c3 + 1/2)).toNat

/-- `posterize_image` from `image.c`: per-pixel direct palette replacement. -/
def posterize_image (image_pixels : List ℕ) (width height : ℕ)
    (target_palette source_palette : List ColorPoint3f) (palette_size : ℕ) :
    List ℕ :=
  (List.range (width * height)).map
    (fun i => posterize_pixel target_palette source_palette palette_size
      (image_pixels.getD i 0))

/-- `DBSCAN_NOISE` from `common.h`. -/
def DBSCAN_NOISE : ℤ := -1

/-- `DBSCAN_UNCLASSIFIED` from `common.h`. -/
def DBSCAN_UNCLASSIFIED : ℤ := -2

/-- Minimum of a list of rationals, as computed by the bounding-box scan in
`grid_create` (which folds `min` starting from `FLT_MAX`; for a nonempty
list this is the list minimum). -/
def qListMin : List ℚ → ℚ
  | [] => 0
  | x :: xs => xs.foldl min x

/-- Maximum of a list of rationals (the `max` side of the same scan). -/
def qListMax : List ℚ → ℚ
  | [] => 0
  | x :: xs => xs.foldl max x

/-- `SpatialGrid` from `dbscan.c`.  The per-cell occupant arrays are not
stored: they are recovered by `cellOccupants` below, which reproduces the
two-pass count-then-fill construction (occupants of a cell are exactly the
point indices mapping to it, in ascending order). -/
structure SpatialGrid where
  grid_size : ℕ
  cell_size : ℚ
  min_c1 : ℚ
  min_c2 : ℚ
  min_c3 : ℚ
deriving Repr

/-- `grid_coord` from `dbscan.c`: `(int)((val - min_val) / cell_size)`
clamped to `[0, grid_size - 1]`.  The C cast truncates toward zero while
`Int.floor` rounds down, but the two differ only on negative non-integers,
which both clamp to `0`, so the clamped results agree. -/
def grid_coord (val min_val : ℚ) (cell_size : ℚ) (grid_size : ℕ) : ℤ :=
  max 0 (min (⌊(val - min_val) / cell_size⌋) ((grid_size : ℤ) - 1))

/-- `grid_index` from `dbscan.c`: row-major linear cell index. -/
def grid_index (x y z : ℕ) (grid_size : ℕ) : ℕ :=
  x * grid_size * grid_size + y * grid_size + z

/-- `grid_create` from `dbscan.c` (the geometric parameters; occupant
lists are given by `cellOccupants`).  Origin is the bounding-box minimum
padded by `eps`, the cell size is `eps`, and the per-dimension cell count
is `ceil(max_range / eps)` clamped to `[1, 256]`. -/
def grid_create (points : List ColorPoint3f) (eps : ℚ) : SpatialGrid :=
  let min1 := qListMin (points.map (·.c1))
  let max1 := qListMax (points.map (·.c1))
  let min2 := qListMin (points.map (·.c2))
  let max2 := qListMax (points.map (·.c2))
  let min3 := qListMin (points.map (·.c3))
  let max3 := qListMax (points.map (·.c3))
  let range1 := (max1 - min1) + 2 * eps
  let range2 := (max2 - min2) + 2 * eps
  let range3 := (max3 - min3) + 2 * eps
  let max_range := max (max range1 range2) range3
  let gs : ℤ := min 256 (max 1 ⌈max_range / eps⌉)
  { grid_size := gs.toNat
    cell_size := eps
    min_c1 := min1 - eps
    min_c2 := min2 - eps
    min_c3 := min3 - eps }

/-- The three clamped cell coordinates of a point. -/
def cellCoords (g : SpatialGrid) (p : ColorPoint3f) : ℤ × ℤ × ℤ :=
  (grid_coord p.c1 g.min_c1 g.cell_size g.grid_size,
   grid_coord p.c2 g.min_c2 g.cell_size g.grid_size,
   grid_coord p.c3 g.min_c3 g.cell_size g.grid_size)

/-- The linear cell index a point is inserted at by `grid_create`. -/
def pointCell (g : SpatialGrid) (p : ColorPoint3f) : ℕ :=
  grid_index (cellCoords g p).1.toNat (cellCoords g p).2.1.toNat
    (cellCoords g p).2.2.toNat g.grid_size

/-- Occupants of one grid cell: the point indices whose cell is `cidx`, in
ascending order — exactly the contents, in insertion order, of the cell
array filled by the second pass of `grid_create`. -/
def cellOccupants (g : SpatialGrid) (points : List ColorPoint3f) (cidx : ℕ) :
    List ℕ :=
  (List.range points.length).filter
    (fun j => pointCell g (points.getD j default) = cidx)

/-- The 27 cell offsets `(dx, dy, dz)`, `dx, dy, dz ∈ {-1, 0, 1}`, in the
lexicographic order of the three nested loops of `grid_range_query`. -/
def neighbor_offsets : List (ℤ × ℤ × ℤ) :=
  ([-1, 0, 1] : List ℤ).flatMap (fun dx =>
    ([-1, 0, 1] : List ℤ).flatMap (fun dy =>
      ([-1, 0, 1] : List ℤ).map (fun dz => (dx, dy, dz))))

/-- The 3×3×3 neighbourhood cell scan of `grid_range_query`: linear cell
indices for offsets `dx, dy, dz ∈ {-1, 0, 1}` in loop order, skipping
coordinates that fall outside `[0, grid_size)`.  (The C loops skip an
out-of-range `nx` before entering the `dy` loop; the emitted cell
sequence is identically the in-range offsets in lexicographic order,
which is what this `filterMap` produces.) -/
def neighbor_cells (g : SpatialGrid) (cx cy cz : ℤ) : List ℕ :=
  neighbor_offsets.filterMap (fun o =>
    let nx := cx + o.1
    let ny := cy + o.2.1
    let nz := cz + o.2.2
    if nx < 0 ∨ (g.grid_size : ℤ) ≤ nx ∨ ny < 0 ∨ (g.grid_size : ℤ) ≤ ny ∨
        nz < 0 ∨ (g.grid_size : ℤ) ≤ nz then none
    else some (grid_index nx.toNat ny.toNat nz.toNat g.grid_size))

/-- `grid_range_query` from `dbscan.c`: all occupants of the 27-cell
neighbourhood within squared distance `eps_sq` of point `point_idx`, in
cell-loop order then insertion order.  The `max_neighbors` cap of the C
signature is not modelled: both call sites pass `n`, and at most `n`
distinct indices can ever be emitted, so the cap never truncates. -/
def grid_range_query (g : SpatialGrid) (points : List ColorPoint3f)
    (point_idx : ℕ) (eps_sq : ℚ) : List ℕ :=
  let p := points.getD point_idx default
  let c := cellCoords g p
  (neighbor_cells g c.1 c.2.1 c.2.2).flatMap (fun cidx =>
    (cellOccupants g points cidx).filter
      (fun j => distance_squared p (points.getD j default) ≤ eps_sq))

/-- One step of the enqueue filter of the cluster-expansion loop in
`dbscan_cluster`: append neighbour `nb` if it is `UNCLASSIFIED` or `NOISE`
and not already in the queue, marking it in the `in_queue` bitmap. -/
def dbscan_enqueue_step (labels : ℕ → ℤ) (st : List ℕ × (ℕ → Bool))
    (nb : ℕ) : List ℕ × (ℕ → Bool) :=
  if ¬ st.2 nb ∧ (labels nb = DBSCAN_UNCLASSIFIED ∨ labels nb = DBSCAN_NOISE)
  then (st.1 ++ [nb], updf st.2 nb true)
  else st

/-- The enqueue filter of the cluster-expansion loop in `dbscan_cluster`,
run over a neighbour list. -/
def dbscan_enqueue (labels : ℕ → ℤ) (nbrs : List ℕ)
    (st : List ℕ × (ℕ → Bool)) : List ℕ × (ℕ → Bool) :=
  nbrs.foldl (dbscan_enqueue_step labels) st

/-- One step of the seed-queue initialization of `dbscan_cluster`:
enqueue neighbour `nb` unless it is the seed itself or already queued. -/
def dbscan_seed_step (i : ℕ) (st : List ℕ × (ℕ → Bool)) (nb : ℕ) :
    List ℕ × (ℕ → Bool) :=
  if nb ≠ i ∧ ¬ st.2 nb then (st.1 ++ [nb], updf st.2 nb true) else st

/-- The seed-queue initialization of `dbscan_cluster`: enqueue every
neighbour of the seed other than the seed itself, marking `in_queue`. -/
def dbscan_seed (i : ℕ) (nbrs : List ℕ) : List ℕ × (ℕ → Bool) :=
  nbrs.foldl (dbscan_seed_step i) ([], fun _ => false)

/-- The `while (queue_start < queue_end)` expansion loop of
`dbscan_cluster`, with explicit fuel (see the header comment): pop `q`;
promote `NOISE` to the current cluster; skip anything else that is not
`UNCLASSIFIED`; otherwise label `q`, and if `q` is core, enqueue its
eligible neighbours at the back of the queue. -/
def dbscan_expand (points : List ColorPoint3f) (g : SpatialGrid) (eps_sq : ℚ)
    (min_pts : ℤ) (cluster_id : ℕ) :
    ℕ → (ℕ → ℤ) → (ℕ → Bool) → List ℕ → ((ℕ → ℤ) × (ℕ → Bool))
  | 0, labels, in_queue, _ => (labels, in_queue)
  | _ + 1, labels, in_queue, [] => (labels, in_queue)
  | fuel + 1, labels, in_queue, q :: rest =>
    if labels q = DBSCAN_NOISE then
      dbscan_expand points g eps_sq min_pts cluster_id fuel
        (updf labels q (cluster_id : ℤ)) in_queue rest
    else if labels q ≠ DBSCAN_UNCLASSIFIED then
      dbscan_expand points g eps_sq min_pts cluster_id fuel labels in_queue rest
    else
      let labels1 := updf labels q (cluster_id : ℤ)
      let nbrs := grid_range_query g points q eps_sq
      if min_pts ≤ (nbrs.length : ℤ) then
        let st := dbscan_enqueue labels1 nbrs (rest, in_queue)
        dbscan_expand points g eps_sq min_pts cluster_id fuel labels1 st.2 st.1
      else
        dbscan_expand points g eps_sq min_pts cluster_id fuel labels1 in_queue rest

/-- One iteration of the main `for (i = 0; i < n; i++)` loop of
`dbscan_cluster` on the state (labels, cluster_id). -/
def dbscan_step (points : List ColorPoint3f) (g : SpatialGrid) (eps_sq : ℚ)
    (min_pts : ℤ) (st : (ℕ → ℤ) × ℕ) (i : ℕ) : (ℕ → ℤ) × ℕ :=
  let labels := st.1
  let cluster_id := st.2
  if labels i ≠ DBSCAN_UNCLASSIFIED then st
  else
    let nbrs := grid_range_query g points i eps_sq
    if (nbrs.length : ℤ) < min_pts then
      (updf labels i DBSCAN_NOISE, cluster_id)
    else
      let labels1 := updf labels i (cluster_id : ℤ)
      let seeded := dbscan_seed i nbrs
      let ex := dbscan_expand points g eps_sq min_pts cluster_id
        (2 * points.length + 1) labels1 seeded.2 seeded.1
      (ex.1, cluster_id + 1)

/-- `dbscan_cluster` from `dbscan.c`.  `labels0` models the caller's label
buffer; the function returns the final buffer contents together with the
returned cluster count.  On `n = 0` the C function returns 0 before
touching the buffer.  (The `!grid` early return is unreachable:
`grid_create` returns NULL only for `n == 0`.) -/
def dbscan_cluster (points : List ColorPoint3f) (eps : ℚ) (min_pts : ℤ)
    (labels0 : ℕ → ℤ) : (ℕ → ℤ) × ℕ :=
  let n := points.length
  if n = 0 then (labels0, 0)
  else
    let eps_sq := eps * eps
    let init : ℕ → ℤ := fun j => if j < n then DBSCAN_UNCLASSIFIED else labels0 j
    let g := grid_create points eps
    (List.range n).foldl (dbscan_step points g eps_sq min_pts) (init, 0)

/-- The state of the main loop of `dbscan_cluster` after its first `m`
iterations (labels function and next cluster id). -/
def dbscan_fold (points : List ColorPoint3f) (eps : ℚ) (min_pts : ℤ)
    (labels0 : ℕ → ℤ) (m : ℕ) : (ℕ → ℤ) × ℕ :=
  (List.range m).foldl
    (dbscan_step points (grid_create points eps) (eps * eps) min_pts)
    ((fun j => if j < points.length then DBSCAN_UNCLASSIFIED else labels0 j), 0)

/-- The brute-force `eps`-neighbourhood of point `i` (including `i`
itself), the specification the grid query is checked against. -/
def bruteNeighbors (points : List ColorPoint3f) (eps_sq : ℚ) (i : ℕ) : List ℕ :=
  (List.range points.length).filter
    (fun j => distance_squared (points.getD i default) (points.getD j default) ≤ eps_sq)

/-- Core point in the sense of the spec glossary: at least `min_pts`
neighbours within `eps`, counting itself, by brute-force distance. -/
def isCorePoint (points : List ColorPoint3f) (eps_sq : ℚ) (min_pts : ℤ)
    (i : ℕ) : Prop :=
  min_pts ≤ ((bruteNeighbors points eps_sq i).length : ℤ)

/-- Having some core point within `eps` (possibly the point itself). -/
def nearCorePoint (points : List ColorPoint3f) (eps_sq : ℚ) (min_pts : ℤ)
    (j : ℕ) : Prop :=
  ∃ q < points.length, isCorePoint points eps_sq min_pts q ∧
    distance_squared (points.getD q default) (points.getD j default) ≤ eps_sq

/-- `count_neighbors` from `hybrid.c`: brute-force count of points within
squared distance `eps_sq` of point `idx` (including itself). -/
def count_neighbors (points : List ColorPoint3f) (idx : ℕ) (eps_sq : ℚ) : ℕ :=
  ((List.range points.length).filter
    (fun j => distance_squared (points.getD idx default) (points.getD j default)
      ≤ eps_sq)).length

/-- The seed loop of `block_dbscan` (hybrid.c lines 71–81): enqueue every
other point that is still UNCLASSIFIED (−2) and within `eps`, labelling it
QUEUED (−3). -/
def block_seed_step (points : List ColorPoint3f) (eps_sq : ℚ) (i : ℕ)
    (st : List ℕ × (ℕ → ℤ)) (j : ℕ) : List ℕ × (ℕ → ℤ) :=
  if j ≠ i ∧ st.2 j = -2 ∧
      distance_squared (points.getD i default) (points.getD j default) ≤ eps_sq
  then (st.1 ++ [j], updf st.2 j (-3))
  else st

def block_seed (points : List ColorPoint3f) (eps_sq : ℚ) (i : ℕ)
    (labels : ℕ → ℤ) : List ℕ × (ℕ → ℤ) :=
  (List.range points.length).foldl (block_seed_step points eps_sq i)
    ([], labels)

/-- The neighbour-enqueue loop inside the expansion of `block_dbscan`
(hybrid.c lines 95–105): only points labelled UNCLASSIFIED (−2) are
enqueued (and relabelled QUEUED, −3); NOISE (−1) points are never
enqueued. -/
def block_enqueue_step (points : List ColorPoint3f) (eps_sq : ℚ) (q : ℕ)
    (st : List ℕ × (ℕ → ℤ)) (j : ℕ) : List ℕ × (ℕ → ℤ) :=
  if st.2 j = -2 ∧
      distance_squared (points.getD q default) (points.getD j default) ≤ eps_sq
  then (st.1 ++ [j], updf st.2 j (-3))
  else st

def block_enqueue (points : List ColorPoint3f) (eps_sq : ℚ) (q : ℕ)
    (st : List ℕ × (ℕ → ℤ)) : List ℕ × (ℕ → ℤ) :=
  (List.range points.length).foldl (block_enqueue_step points eps_sq q) st

/-- The `while` expansion loop of `block_dbscan` (hybrid.c lines 83–107),
with explicit fuel: pop `q`; if `q` is labelled NOISE promote it and
continue; otherwise label it with the current cluster and, if core,
enqueue its UNCLASSIFIED neighbours. -/
def block_expand (points : List ColorPoint3f) (eps_sq : ℚ) (min_pts : ℤ)
    (cluster_id : ℕ) : ℕ → (ℕ → ℤ) → List ℕ → (ℕ → ℤ)
  | 0, labels, _ => labels
  | _ + 1, labels, [] => labels
  | fuel + 1, labels, q :: rest =>
    if labels q = -1 then
      block_expand points eps_sq min_pts cluster_id fuel
        (updf labels q (cluster_id : ℤ)) rest
    else
      let labels1 := updf labels q (cluster_id : ℤ)
      if min_pts ≤ (count_neighbors points q eps_sq : ℤ) then
        let st := block_enqueue points eps_sq q (rest, labels1)
        block_expand points eps_sq min_pts cluster_id fuel st.2 st.1
      else
        block_expand points eps_sq min_pts cluster_id fuel labels1 rest

/-- One iteration of the outer `for` loop of `block_dbscan` on the state
(labels, cluster_id). -/
def block_step (points : List ColorPoint3f) (eps_sq : ℚ) (min_pts : ℤ)
    (st : (ℕ → ℤ) × ℕ) (i : ℕ) : (ℕ → ℤ) × ℕ :=
  let labels := st.1
  let cluster_id := st.2
  if labels i ≠ -2 then st
  else if (count_neighbors points i eps_sq : ℤ) < min_pts then
    (updf labels i (-1), cluster_id)
  else
    let labels1 := updf labels i (cluster_id : ℤ)
    let seeded := block_seed points eps_sq i labels1
    let labels2 := block_expand points eps_sq min_pts cluster_id
      (2 * points.length + 1) seeded.2 seeded.1
    (labels2, cluster_id + 1)

/-- The label state of `block_dbscan` after the first `m` iterations of
its outer loop (all labels start UNCLASSIFIED = −2). -/
def block_labels_after (points : List ColorPoint3f) (eps : ℚ) (min_pts : ℤ)
    (m : ℕ) : (ℕ → ℤ) × ℕ :=
  (List.range m).foldl (block_step points (eps * eps) min_pts)
    (fun _ => -2, 0)

/-- The final labelling phase of `block_dbscan` from `hybrid.c`: labels
and cluster count after the full outer loop. -/
def block_dbscan_labels (points : List ColorPoint3f) (eps : ℚ) (min_pts : ℤ) :
    (ℕ → ℤ) × ℕ :=
  block_labels_after points eps min_pts points.length

/-- The representative list built by `block_dbscan` after labelling: the
centroid of each nonempty cluster in id order, then every noise point
verbatim in index order. -/
def block_dbscan_reps (points : List ColorPoint3f) (eps : ℚ) (min_pts : ℤ) :
    List ColorPoint3f :=
  let r := block_dbscan_labels points eps min_pts
  let labels := r.1
  let n := points.length
  let clusterReps := (List.range r.2).filterMap (fun c =>
    let members := (List.range n).filter (fun i => labels i = (c : ℤ))
    if members.length = 0 then none
    else some
      ⟨(members.map (fun i => (points.getD i default).c1)).sum / members.length,
       (members.map (fun i => (points.getD i default).c2)).sum / members.length,
       (members.map (fun i => (points.getD i default).c3)).sum / members.length⟩)
  let noiseReps := ((List.range n).filter (fun i => labels i = -1)).map
    (fun i => points.getD i default)
  clusterReps ++ noiseReps

/-- `FLT_MAX`, the exact value of the largest finite float32
(used to initialize minimum scans in `distance.c` and `kmeans.c`). -/
def FLT_MAX : ℚ := 2 ^ 128 - 2 ^ 104

/-- `xorshift64_init` from `random.h`: seed 0 is replaced by 42.
States are naturals reduced modulo `2^64`. -/
def xorshift64_init (seed : ℕ) : ℕ :=
  if seed % 2 ^ 64 = 0 then 42 else seed % 2 ^ 64

/-- `xorshift64_next` from `random.h`: the (13, 7, 17) xorshift step on a
64-bit state. -/
def xorshift64_next (state : ℕ) : ℕ :=
  let x1 := Nat.xor state ((state <<< 13) % 2 ^ 64)
  let x2 := Nat.xor x1 (x1 >>> 7)
  Nat.xor x2 ((x2 <<< 17) % 2 ^ 64)

/-- `xorshift64_int` from `random.h`: value in `[0, maxv)` by modulo,
returned together with the advanced state. -/
def xorshift64_int (state : ℕ) (maxv : ℕ) : ℕ × ℕ :=
  let x := xorshift64_next state
  (x % maxv, x)

/-- `xorshift64_double` from `random.h`: the top 53 bits divided by
`2^53`, returned together with the advanced state. -/
def xorshift64_double (state : ℕ) : ℚ × ℕ :=
  let x := xorshift64_next state
  (((x >>> 11 : ℕ) : ℚ) / 2 ^ 53, x)

/-- `find_nearest_centroid` from `distance.c`: scan initialized with
`FLT_MAX`, strict improvement, lowest index wins ties.  Centroid buffers
are modelled as functions. -/
def find_nearest_centroid (point : ColorPoint3f) (centroids : ℕ → ColorPoint3f)
    (k : ℕ) : ℕ :=
  ((List.range k).foldl
    (fun st i =>
      let dist := distance_squared point (centroids i)
      if dist < st.2 then (i, dist) else st)
    (0, FLT_MAX)).1

/-- `assign_points_batch` from `distance.c` (scalar path; the SSE path
computes the same lowest-index nearest centroid): returns the number of
changed assignments and the updated assignment buffer. -/
def assign_points_batch (points : List ColorPoint3f) (n : ℕ)
    (centroids : ℕ → ColorPoint3f) (k : ℕ) (assignments : ℕ → ℤ) :
    ℕ × (ℕ → ℤ) :=
  (List.range n).foldl
    (fun st i =>
      let nearest := find_nearest_centroid (points.getD i default) centroids k
      if st.2 i ≠ (nearest : ℤ) then (st.1 + 1, updf st.2 i (nearest : ℤ))
      else st)
    (0, assignments)

/-- The weighted-selection scan of `kmeans_init_plusplus`: first index
whose cumulative distance mass reaches the threshold, defaulting to the
last point if the scan runs out. -/
def kpp_scan (threshold : ℚ) : List ℚ → ℚ → ℕ → ℕ → ℕ
  | [], _, _, dflt => dflt
  | d :: rest, cum, idx, dflt =>
    if threshold ≤ cum + d then idx
    else kpp_scan threshold rest (cum + d) (idx + 1) dflt

/-- `kmeans_init_plusplus` from `kmeans.c`: first centroid drawn
uniformly, then D²-weighted selection for each further centroid. -/
def kmeans_init_plusplus (points : List ColorPoint3f) (n k : ℕ)
    (centroids0 : ℕ → ColorPoint3f) (seed : ℕ) : ℕ → ColorPoint3f :=
  let rng0 := xorshift64_init seed
  let first := xorshift64_int rng0 n
  let cents1 := updf centroids0 0 (points.getD first.1 default)
  ((List.range' 1 (k - 1)).foldl
    (fun (st : (ℕ → ColorPoint3f) × ℕ) c =>
      let distAt : ℕ → ℚ := fun i =>
        (List.range c).foldl
          (fun m j =>
            let d := distance_squared (points.getD i default) (st.1 j)
            if d < m then d else m)
          FLT_MAX
      let dists := (List.range n).map distAt
      let total := dists.sum
      let rd := xorshift64_double st.2
      let threshold := rd.1 * total
      let selected := kpp_scan threshold dists 0 0 (n - 1)
      (updf st.1 c (points.getD selected default), rd.2))
    (cents1, first.2)).1

/-- `kmeans_update_centroids` from `kmeans.c`: recompute each centroid as
the mean of its members (empty clusters are repaired with a random
point), track the maximal squared movement, and return
`sqrtf(max_movement)` (via the abstract `sqrtf`) with the new centroid
buffer.  The C accumulation guard `cluster >= 0 && cluster < k` admits,
for each `c < k`, exactly the indices assigned to `c`. -/
def kmeans_update_centroids (sqrtf : ℚ → ℚ) (points : List ColorPoint3f)
    (n : ℕ) (assignments : ℕ → ℤ) (k : ℕ) (centroids : ℕ → ColorPoint3f)
    (seed : ℕ) : ℚ × (ℕ → ColorPoint3f) :=
  let rng0 := xorshift64_init seed
  let r := (List.range k).foldl
    (fun (st : (ℕ → ColorPoint3f) × ℕ × ℚ) (c : ℕ) =>
      let members := (List.range n).filter (fun i => assignments i = (c : ℤ))
      let cnt := members.length
      let pick :=
        if cnt ≠ 0 then
          ((⟨(members.map (fun i => (points.getD i default).c1)).sum / cnt,
             (members.map (fun i => (points.getD i default).c2)).sum / cnt,
             (members.map (fun i => (points.getD i default).c3)).sum / cnt⟩ :
            ColorPoint3f), st.2.1)
        else
          let ri := xorshift64_int st.2.1 n
          (points.getD ri.1 default, ri.2)
      let movement := distance_squared (st.1 c) pick.1
      (updf st.1 c pick.1, pick.2,
        if st.2.2 < movement then movement else st.2.2))
    (centroids, rng0, 0)
  (sqrtf r.2.2, r.1)

/-- The `for (iteration = 0; ...)` loop of `kmeans_cluster`, structurally
recursive on the remaining iteration budget.  Returns the 1-indexed
iteration count (the C `iteration++; break` on convergence) together with
the centroid and assignment buffers. -/
def kmeans_loop (sqrtf : ℚ → ℚ) (points : List ColorPoint3f) (n k : ℕ)
    (threshold : ℚ) (seed : ℕ) :
    ℕ → ℕ → (ℕ → ColorPoint3f) → (ℕ → ℤ) →
    (ℕ × (ℕ → ColorPoint3f) × (ℕ → ℤ))
  | 0, iter, cents, asg => (iter, cents, asg)
  | rem + 1, iter, cents, asg =>
    let ab := assign_points_batch points n cents k asg
    let uc := kmeans_update_centroids sqrtf points n ab.2 k cents (seed + iter)
    if uc.1 < threshold ∨ ab.1 = 0 then (iter + 1, uc.2, ab.2)
    else kmeans_loop sqrtf points n k threshold seed rem (iter + 1) uc.2 ab.2

/-- `kmeans_cluster` from `kmeans.c`.  `centroids0` and `assignments0`
model the caller's output buffers, which the guard branch returns
untouched with 0 iterations. -/
def kmeans_cluster (sqrtf : ℚ → ℚ) (points : List ColorPoint3f) (k : ℤ)
    (max_iterations : ℤ) (convergence_threshold : ℚ)
    (centroids0 : ℕ → ColorPoint3f) (assignments0 : ℕ → ℤ) (seed : ℕ) :
    ℕ × (ℕ → ColorPoint3f) × (ℕ → ℤ) :=
  let n := points.length
  if n = 0 ∨ k ≤ 0 then (0, centroids0, assignments0)
  else
    let kk := (min k (n : ℤ)).toNat
    let cents1 := kmeans_init_plusplus points n kk centroids0 seed
    let asg1 : ℕ → ℤ := fun j => if j < n then 0 else assignments0 j
    kmeans_loop sqrtf points n kk convergence_threshold seed
      max_iterations.toNat 0 cents1 asg1

/-- `hybrid_cluster` from `hybrid.c`: guard, `k`-dependent iteration
override, short-circuit to plain K-Means for small inputs, otherwise
per-block DBSCAN representatives (in block order) padded with random
points up to `k`, then K-Means over the representatives. -/
def hybrid_cluster (sqrtf : ℚ → ℚ) (points : List ColorPoint3f) (k : ℤ)
    (block_size : ℕ) (dbscan_eps : ℚ) (dbscan_min_pts : ℤ)
    (kmeans_max_iter : ℤ) (kmeans_threshold : ℚ)
    (centroids0 : ℕ → ColorPoint3f) (seed : ℕ) :
    ℕ × (ℕ → ColorPoint3f) :=
  let n := points.length
  if n = 0 ∨ k ≤ 0 then (0, centroids0)
  else
    let k1 := min k (n : ℤ)
    let actual_max_iter : ℤ :=
      if 100 < k1 then 20 else if 32 < k1 then 30 else kmeans_max_iter
    if n ≤ block_size * 2 then
      let r := kmeans_cluster sqrtf points k1 actual_max_iter kmeans_threshold
        centroids0 (fun _ => 0) seed
      (r.1, r.2.1)
    else
      let num_blocks := (n + block_size - 1) / block_size
      let reps := (List.range num_blocks).flatMap (fun b =>
        let start := b * block_size
        let stop := min n (start + block_size)
        block_dbscan_reps ((points.drop start).take (stop - start))
          dbscan_eps dbscan_min_pts)
      let padded :=
        if (reps.length : ℤ) < k1 then
          reps ++ ((List.range (k1.toNat - reps.length)).foldl
            (fun (st : List ColorPoint3f × ℕ) _ =>
              let ri := xorshift64_int st.2 n
              (st.1 ++ [points.getD ri.1 default], ri.2))
            ([], xorshift64_init seed)).1
        else reps
      let r := kmeans_cluster sqrtf padded k1 actual_max_iter kmeans_threshold
        centroids0 (fun _ => 0) seed
      (r.1, r.2.1)

/-- Bounds-checked array write (C array assignment). -/
def aset (a : Array ℚ) (i : ℕ) (v : ℚ) : Array ℚ :=
  if h : i < a.size then a.set ⟨i, h⟩ v else a

/-- One pass of the partial selection sort used by both epsilon
estimators: find the minimum of `arr[i..]` and swap it to position `i`. -/
def sel_pass (arr : Array ℚ) (i : ℕ) : Array ℚ :=
  let min_idx := (List.range' (i + 1) (arr.size - (i + 1))).foldl
    (fun mi j => if arr.getD j 0 < arr.getD mi 0 then j else mi) i
  if min_idx ≠ i then
    let tmp := arr.getD i 0
    aset (aset arr i (arr.getD min_idx 0)) min_idx tmp
  else arr

/-- The exchange sort used on the sampled k-distances by both estimators
(the C outer loop stops at `size - 1`; the extra final pass here has an
empty inner loop, leaving the array unchanged). -/
def exch_sort (arr : Array ℚ) : Array ℚ :=
  (List.range arr.size).foldl
    (fun a i =>
      (List.range' (i + 1) (a.size - (i + 1))).foldl
        (fun a j =>
          if a.getD j 0 < a.getD i 0 then
            let tmp := a.getD i 0
            aset (aset a i (a.getD j 0)) j tmp
          else a)
        a)
    arr

/-- The LCG step `state * 6364136223846793005 + 1442695040888963407` used
for sampling in `dbscan_calculate_eps`. -/
def lcg_next (state : ℕ) : ℕ :=
  (state * 6364136223846793005 + 1442695040888963407) % 2 ^ 64

/-- `dbscan_calculate_eps` from `dbscan.c`, abstracted over the C
library's `sqrtf`.  For `n <= min_pts` it returns the fixed default
`15.0` without consuming the seed or looking at any point; otherwise the
85th-percentile sampled k-distance clamped to `[5, 100]`.  (The exact
double constant `0.85` rounds up, so truncating the exact product
`actual_samples * 17/20` matches the C truncation for every sample
count.) -/
def dbscan_calculate_eps (sqrtf : ℚ → ℚ) (points : List ColorPoint3f)
    (min_pts : ℤ) (sample_size : ℤ) (seed : ℕ) : ℚ :=
  let n := points.length
  if (n : ℤ) ≤ min_pts then 15
  else
    let k0 : ℤ := if 1 < min_pts then min_pts - 1 else 1
    let kk : ℕ := (if (n : ℤ) - 1 < k0 then (n : ℤ) - 1 else k0).toNat
    let actual_samples : ℕ :=
      (if sample_size < (n : ℤ) then sample_size else (n : ℤ)).toNat
    let s0 : ℕ := if seed % 2 ^ 64 = 0 then 12345 else seed % 2 ^ 64
    let kd := (List.range actual_samples).foldl
      (fun (st : Array ℚ × ℕ) _ =>
        let rng := lcg_next st.2
        let idx := (rng >>> 33) % n
        let p := points.getD idx default
        let dists : Array ℚ := ((List.range n).map
          (fun j => sqrtf (distance_squared p (points.getD j default)))).toArray
        let sorted := (List.range (kk + 1)).foldl sel_pass dists
        (st.1.push (sorted.getD kk 0), rng))
      (#[], s0)
    let sorted_kd := exch_sort kd.1
    let elbow_idx := (ratTrunc ((actual_samples : ℚ) * (17 / 20))).toNat
    let eps := sorted_kd.getD elbow_idx 0
    let eps1 := if eps < 5 then 5 else eps
    if 100 < eps1 then 100 else eps1

/-- `hybrid_calculate_dbscan_eps` from `hybrid.c`, abstracted over
`sqrtf`.  For `n <= block_size` it returns the fixed default `15.0`
without consuming the seed or looking at any point; otherwise the mean
over up to 10 sampled blocks of the median sampled k-distance, clamped to
`[8, 30]`. -/
def hybrid_calculate_dbscan_eps (sqrtf : ℚ → ℚ) (points : List ColorPoint3f)
    (block_size : ℕ) (min_pts : ℤ) (seed : ℕ) : ℚ :=
  let n := points.length
  if n ≤ block_size then 15
  else
    let rng0 := xorshift64_init seed
    let num_blocks := (n + block_size - 1) / block_size
    let sample_blocks := min num_blocks 10
    let r := (List.range sample_blocks).foldl
      (fun (st : ℚ × ℕ) _ =>
        let rb := xorshift64_int st.2 num_blocks
        let start := rb.1 * block_size
        let stop := min n (start + block_size)
        let block_n := stop - start
        if (block_n : ℤ) ≤ min_pts then (st.1 + 15, rb.2)
        else
          let k0 : ℤ := if 1 < min_pts then min_pts - 1 else 1
          let kk : ℕ := (if (block_n : ℤ) ≤ k0 then (block_n : ℤ) - 1 else k0).toNat
          let sample_size := min block_n 20
          let inner := (List.range sample_size).foldl
            (fun (st2 : Array ℚ × ℕ) _ =>
              let ri := xorshift64_int st2.2 block_n
              let idx := start + ri.1
              let p := points.getD idx default
              let dists : Array ℚ := ((List.range block_n).map
                (fun j => sqrtf (distance_squared p
                  (points.getD (start + j) default)))).toArray
              let sorted := (List.range (kk + 1)).foldl sel_pass dists
              (st2.1.push (sorted.getD kk 0), ri.2))
            (#[], rb.2)
          let sorted_kd := exch_sort inner.1
          let median_idx := sample_size / 2
          (st.1 + sorted_kd.getD median_idx 0, inner.2))
      (0, rng0)
    let avg := r.1 / (sample_blocks : ℚ)
    let a1 := if avg < 8 then 8 else avg
    if 30 < a1 then 30 else a1

/-- A palette entry whose three channels are integers in `[0, 255]`
(exact 8-bit colors). -/
def byteChannels (p : ColorPoint3f) : Prop :=
  (∃ m : ℕ, m ≤ 255 ∧ p.c1 = m) ∧ (∃ m : ℕ, m ≤ 255 ∧ p.c2 = m) ∧
    (∃ m : ℕ, m ≤ 255 ∧ p.c3 = m)

/-! ## Helper lemmas -/

theorem updf_same {α : Type} (f : ℕ → α) (i : ℕ) (v : α) : updf f i v i = v := by
  simp [updf]

theorem updf_other {α : Type} (f : ℕ → α) (i j : ℕ) (v : α) (h : j ≠ i) :
    updf f i v j = f j := by
  simp [updf, h]

theorem getD_map_range {α : Type} (n i : ℕ) (f : ℕ → α) (d : α) (h : i < n) :
    ((List.range n).map f).getD i d = f i := by
  rw [List.getD_eq_getElem _ _ (by simpa using h)]
  simp

theorem pack_pixel_eq_add (r g b : ℕ) (hg : g < 256) (hb : b < 256) :
    pack_pixel r g b = r * 65536 + g * 256 + b := by
  have e1 : (r <<< 16) ||| (g <<< 8) = r * 65536 + g * 256 := by
    rw [Nat.shiftLeft_eq, Nat.shiftLeft_eq]
    rw [mul_comm r (2 ^ 16), mul_comm g (2 ^ 8)]
    rw [← Nat.mul_add_lt_is_or (by omega : (2 : ℕ) ^ 8 * g < 2 ^ 16) r]
  have e2 : r * 65536 + g * 256 = 2 ^ 8 * (r * 256 + g) := by ring
  rw [pack_pixel, e1, e2, ← Nat.mul_add_lt_is_or (by omega : b < 2 ^ 8) (r * 256 + g)]

theorem pack_pixel_lt (r g b : ℕ) (hr : r < 256) (hg : g < 256) (hb : b < 256) :
    pack_pixel r g b < 2 ^ 24 := by
  rw [pack_pixel_eq_add r g b hg hb]; omega

theorem chanR_pack (r g b : ℕ) (hr : r < 256) (hg : g < 256) (hb : b < 256) :
    chanR (pack_pixel r g b) = r := by
  rw [pack_pixel_eq_add r g b hg hb, chanR, Nat.shiftRight_eq_div_pow]
  omega

theorem chanG_pack (r g b : ℕ) (hr : r < 256) (hg : g < 256) (hb : b < 256) :
    chanG (pack_pixel r g b) = g := by
  rw [pack_pixel_eq_add r g b hg hb, chanG, Nat.shiftRight_eq_div_pow]
  omega

theorem chanB_pack (r g b : ℕ) (hr : r < 256) (hg : g < 256) (hb : b < 256) :
    chanB (pack_pixel r g b) = b := by
  rw [pack_pixel_eq_add r g b hg hb, chanB]
  omega

theorem chanR_lt (pixel : ℕ) : chanR pixel < 256 := Nat.mod_lt _ (by norm_num)

theorem chanG_lt (pixel : ℕ) : chanG pixel < 256 := Nat.mod_lt _ (by norm_num)

theorem chanB_lt (pixel : ℕ) : chanB pixel < 256 := Nat.mod_lt _ (by norm_num)

theorem pack_unpack (pixel : ℕ) (h : pixel < 2 ^ 24) :
    pack_pixel (chanR pixel) (chanG pixel) (chanB pixel) = pixel := by
  rw [pack_pixel_eq_add _ _ _ (chanG_lt pixel) (chanB_lt pixel),
    chanR, chanG, chanB, Nat.shiftRight_eq_div_pow, Nat.shiftRight_eq_div_pow]
  omega

theorem shiftRight24_eq_zero_iff (x : ℕ) : x >>> 24 = 0 ↔ x < 2 ^ 24 := by
  rw [Nat.shiftRight_eq_div_pow]
  omega

theorem perceptual_distance_sq_nonneg (a b : ColorPoint3f) :
    0 ≤ perceptual_distance_sq a b := by
  simp only [perceptual_distance_sq]
  split <;>
    nlinarith [mul_self_nonneg (a.c1 - b.c1), mul_self_nonneg (a.c2 - b.c2),
      mul_self_nonneg (a.c3 - b.c3)]

theorem perceptual_distance_sq_self (a : ColorPoint3f) :
    perceptual_distance_sq a a = 0 := by
  simp only [perceptual_distance_sq]
  split <;> ring

theorem perceptual_distance_sq_eq_zero (a b : ColorPoint3f)
    (h : perceptual_distance_sq a b = 0) : a = b := by
  simp only [perceptual_distance_sq] at h
  have h1 : a.c1 = b.c1 ∧ a.c2 = b.c2 ∧ a.c3 = b.c3 := by
    by_cases hc : (a.c1 + b.c1) / 2 < 128 <;> simp only [hc, if_pos, if_neg,
      if_true, if_false, not_false_iff] at h <;>
      refine ⟨?_, ?_, ?_⟩ <;> nlinarith [sq_nonneg (a.c1 - b.c1),
        sq_nonneg (a.c2 - b.c2), sq_nonneg (a.c3 - b.c3)]
  obtain ⟨e1, e2, e3⟩ := h1
  cases a; cases b; simp_all

theorem fnp_fold_spec (p : ColorPoint3f) (pal : List ColorPoint3f)
    (l : List ℕ) :
    ∀ (j0 : ℕ) (d0 : ℚ), d0 = perceptual_distance_sq p (pal.getD j0 default) →
    ((l.foldl (fnpStep p pal) (j0, d0)).1 = j0 ∨
        (l.foldl (fnpStep p pal) (j0, d0)).1 ∈ l) ∧
      (l.foldl (fnpStep p pal) (j0, d0)).2 =
        perceptual_distance_sq p
          (pal.getD (l.foldl (fnpStep p pal) (j0, d0)).1 default) ∧
      (l.foldl (fnpStep p pal) (j0, d0)).2 ≤ d0 ∧
      ∀ i ∈ l, (l.foldl (fnpStep p pal) (j0, d0)).2 ≤
        perceptual_distance_sq p (pal.getD i default) := by
  induction l with
  | nil => intro j0 d0 h0; simpa using h0
  | cons a t ih =>
    intro j0 d0 h0
    simp only [List.foldl_cons]
    by_cases hlt : perceptual_distance_sq p (pal.getD a default) < d0
    · have hstep : fnpStep p pal (j0, d0) a =
        (a, perceptual_distance_sq p (pal.getD a default)) := if_pos hlt
      rw [hstep]
      obtain ⟨m1, m2, m3, m4⟩ := ih a (perceptual_distance_sq p (pal.getD a default)) rfl
      refine ⟨?_, m2, ?_, ?_⟩
      · rcases m1 with h | h
        · exact Or.inr (by rw [h]; exact List.mem_cons_self a t)
        · exact Or.inr (List.mem_cons_of_mem _ h)
      · exact le_of_lt (lt_of_le_of_lt m3 hlt)
      · intro i hi
        rcases List.mem_cons.mp hi with rfl | hi
        · exact m3
        · exact m4 i hi
    · have hstep : fnpStep p pal (j0, d0) a = (j0, d0) := if_neg hlt
      rw [hstep]
      obtain ⟨m1, m2, m3, m4⟩ := ih j0 d0 h0
      refine ⟨?_, m2, m3, ?_⟩
      · rcases m1 with h | h
        · exact Or.inl h
        · exact Or.inr (List.mem_cons_of_mem _ h)
      · intro i hi
        rcases List.mem_cons.mp hi with rfl | hi
        · exact le_trans m3 (le_of_not_lt hlt)
        · exact m4 i hi

theorem find_nearest_perceptual_lt (p : ColorPoint3f) (pal : List ColorPoint3f)
    (k : ℕ) (hk : 0 < k) : find_nearest_perceptual p pal k < k := by
  unfold find_nearest_perceptual
  obtain ⟨m1, -, -, -⟩ := fnp_fold_spec p pal (List.range' 1 (k - 1)) 0
    (perceptual_distance_sq p (pal.getD 0 default)) rfl
  rcases m1 with h | h
  · omega
  · have := List.mem_range'_1.mp h
    omega

theorem find_nearest_perceptual_min (p : ColorPoint3f) (pal : List ColorPoint3f)
    (k : ℕ) (i : ℕ) (hi : i < k) :
    perceptual_distance_sq p
      (pal.getD (find_nearest_perceptual p pal k) default) ≤
    perceptual_distance_sq p (pal.getD i default) := by
  unfold find_nearest_perceptual
  obtain ⟨-, m2, m3, m4⟩ := fnp_fold_spec p pal (List.range' 1 (k - 1)) 0
    (perceptual_distance_sq p (pal.getD 0 default)) rfl
  rw [← m2]
  rcases Nat.eq_zero_or_pos i with rfl | hip
  · exact m3
  · exact m4 i (List.mem_range'_1.mpr ⟨hip, by omega⟩)

theorem palette_select_lt (T : List ColorPoint3f) (k : ℕ) (pixel : ℕ)
    (hk : 0 < k) : palette_select T k pixel < k := by
  unfold palette_select
  split
  · exact find_nearest_perceptual_lt _ _ _ hk
  · exact find_nearest_perceptual_lt _ _ _ hk

theorem clamp255_of_range (x : ℤ) (h0 : 0 ≤ x) (h255 : x ≤ 255) :
    clamp255 x = x := by
  rw [clamp255, if_neg (by omega), if_neg (by omega)]

theorem ratTrunc_add_half_eq_round (c : ℚ) (h : 0 ≤ round c) :
    ratTrunc (c + 1/2) = round c := by
  rw [round_eq] at h ⊢
  have hpos : (0 : ℚ) ≤ c + 1/2 := by
    by_contra hneg
    have : ⌊c + 1/2⌋ < 0 := Int.floor_lt.mpr (by push_neg at hneg; simpa using hneg)
    omega
  rw [ratTrunc, if_pos hpos]

theorem posterize_image_getD (pixels : List ℕ) (w h : ℕ)
    (T S : List ColorPoint3f) (k : ℕ) (i : ℕ) (hi : i < w * h) :
    (posterize_image pixels w h T S k).getD i 0 =
      posterize_pixel T S k (pixels.getD i 0) := by
  unfold posterize_image
  exact getD_map_range _ _ _ _ hi

theorem resynthesize_image_getD (pixels : List ℕ) (w h : ℕ)
    (T S : List ColorPoint3f) (k : ℕ) (i : ℕ) (hi : i < w * h) :
    (resynthesize_image pixels w h T S k).getD i 0 =
      resynthesize_pixel T S k (pixels.getD i 0) := by
  unfold resynthesize_image
  exact getD_map_range _ _ _ _ hi

set_option maxRecDepth 10000 in
/-- Claim C1, counterexample.  `posterize_image` does NOT clamp its output
channels to `[0, 255]`: with source palette entry `(300, 0, 0)` the output
pixel of the all-zero one-pixel image is `300 << 16 = 19660800`, whose top
byte is nonzero, instead of the clamped `round`-and-clamp value
`pack(255, 0, 0) = 16711680` the claim predicts. -/
theorem c1_counterexample :
    posterize_image [0] 1 1 [⟨0, 0, 0⟩] [⟨300, 0, 0⟩] 1 = [19660800] ∧
    (19660800 : ℕ) ≠
      pack_pixel (clamp255 (round ((300 : ℚ)))).toNat
        (clamp255 (round ((0 : ℚ)))).toNat
        (clamp255 (round ((0 : ℚ)))).toNat := by
  constructor
  · with_unfolding_all decide
  · with_unfolding_all decide

/-- Claim C1, amended: every pixel produced by `posterize_image` is
`round(source_palette[i])` for the selected palette index `i`, packed per
channel — but the code does not clamp, so this equals the claimed
clamped value only when every rounded source channel already lies in
`[0, 255]` (hypothesis `hS`).  Under that hypothesis the claim holds in
both the direct path (`palette_size > 4096`) and the LUT path
(`palette_size ≤ 4096`), which differ only inside `palette_select`. -/
theorem c1_amended (T S : List ColorPoint3f) (k : ℕ) (pixels : List ℕ)
    (w h : ℕ) (hk : 0 < k) (hkS : k ≤ S.length)
    (hS : ∀ s ∈ S, (0 ≤ round s.c1 ∧ round s.c1 ≤ 255) ∧
      (0 ≤ round s.c2 ∧ round s.c2 ≤ 255) ∧
      (0 ≤ round s.c3 ∧ round s.c3 ≤ 255))
    (i : ℕ) (hi : i < w * h) :
    (posterize_image pixels w h T S k).getD i 0 =
      pack_pixel
        (clamp255 (round ((S.getD (palette_select T k (pixels.getD i 0)) default).c1))).toNat
        (clamp255 (round ((S.getD (palette_select T k (pixels.getD i 0)) default).c2))).toNat
        (clamp255 (round ((S.getD (palette_select T k (pixels.getD i 0)) default).c3))).toNat := by
  rw [posterize_image_getD pixels w h T S k i hi]
  have hidx : palette_select T k (pixels.getD i 0) < S.length :=
    lt_of_lt_of_le (palette_select_lt T k _ hk) hkS
  have hmem : S.getD (palette_select T k (pixels.getD i 0)) default ∈ S := by
    rw [List.getD_eq_getElem _ _ hidx]
    exact List.getElem_mem hidx
  obtain ⟨⟨h1a, h1b⟩, ⟨h2a, h2b⟩, ⟨h3a, h3b⟩⟩ := hS _ hmem
  simp only [posterize_pixel]
  rw [ratTrunc_add_half_eq_round _ h1a, ratTrunc_add_half_eq_round _ h2a,
    ratTrunc_add_half_eq_round _ h3a,
    clamp255_of_range _ h1a h1b, clamp255_of_range _ h2a h2b,
    clamp255_of_range _ h3a h3b]

/-- Claim C1, witness for the amended theorem at a concrete in-range
palette (LUT path, `k = 1`). -/
theorem c1_witness :
    (posterize_image [0] 1 1 [⟨1, 2, 3⟩] [⟨52/5, 200, 0⟩] 1).getD 0 0 =
      pack_pixel
        (clamp255 (round ((([⟨52/5, 200, 0⟩] :
          List ColorPoint3f).getD (palette_select [⟨1, 2, 3⟩] 1 (([0] :
          List ℕ).getD 0 0)) default).c1))).toNat
        (clamp255 (round ((([⟨52/5, 200, 0⟩] :
          List ColorPoint3f).getD (palette_select [⟨1, 2, 3⟩] 1 (([0] :
          List ℕ).getD 0 0)) default).c2))).toNat
        (clamp255 (round ((([⟨52/5, 200, 0⟩] :
          List ColorPoint3f).getD (palette_select [⟨1, 2, 3⟩] 1 (([0] :
          List ℕ).getD 0 0)) default).c3))).toNat :=
  c1_amended [⟨1, 2, 3⟩] [⟨52/5, 200, 0⟩] 1 [0] 1 1 (by norm_num) (by simp)
    (by with_unfolding_all decide) 0 (by norm_num)

theorem ratTrunc_natCast_add_half (m : ℕ) : ratTrunc ((m : ℚ) + 1/2) = m := by
  rw [ratTrunc, if_pos (by positivity)]
  rw [add_comm, Int.floor_add_nat, show ⌊(1 : ℚ)/2⌋ = 0 from by norm_num]
  ring

/-- The output of `posterize_pixel` when the selected source entry has
integer byte channels: the exact packed color, and its unpacking recovers
the palette entry. -/
theorem posterize_pixel_byte (T S : List ColorPoint3f) (k : ℕ) (x : ℕ)
    (m1 m2 m3 : ℕ) (h1 : m1 ≤ 255) (h2 : m2 ≤ 255) (h3 : m3 ≤ 255)
    (hentry : S.getD (palette_select T k x) default =
      ⟨(m1 : ℚ), (m2 : ℚ), (m3 : ℚ)⟩) :
    posterize_pixel T S k x = pack_pixel m1 m2 m3 := by
  simp only [posterize_pixel, hentry]
  rw [ratTrunc_natCast_add_half, ratTrunc_natCast_add_half,
    ratTrunc_natCast_add_half]
  simp

set_option maxRecDepth 20000 in
/-- Claim C2, counterexample.  Posterize is NOT idempotent: with
`T = [(255,255,255), (0,0,0)]` and `S = [(11,0,0), (10,0,0)]`, the
one-pixel image `(200,200,200)` posterizes to `(11,0,0)`, but
re-posterizing with `(S, S)` moves it to `(10,0,0)`: the LUT grid point of
`(11,0,0)` is `(10.039.., 0, 0)`, which is strictly closer to the entry
`(10,0,0)` than to `(11,0,0)`. -/
theorem c2_counterexample :
    posterize_image
        (posterize_image [13158600] 1 1 [⟨255, 255, 255⟩, ⟨0, 0, 0⟩]
          [⟨11, 0, 0⟩, ⟨10, 0, 0⟩] 2) 1 1
        [⟨11, 0, 0⟩, ⟨10, 0, 0⟩] [⟨11, 0, 0⟩, ⟨10, 0, 0⟩] 2 ≠
      posterize_image [13158600] 1 1 [⟨255, 255, 255⟩, ⟨0, 0, 0⟩]
        [⟨11, 0, 0⟩, ⟨10, 0, 0⟩] 2 := by
  with_unfolding_all decide

/-- Claim C2, amended: posterize is idempotent —
`posterize(posterize(image, T, S), S, S) = posterize(image, T, S)` —
in the direct path (`palette_size > 4096`, where the nearest entry is
computed on the exact pixel color) provided every source palette entry has
integer channels in `[0, 255]`.  With the LUT path or fractional entries,
re-application can change pixels (see `c2_counterexample`): the nearest
entry is re-selected at the rounded / grid-quantized color. -/
theorem c2_amended (pixels : List ℕ) (w h : ℕ) (T S : List ColorPoint3f)
    (k : ℕ) (hk : 4096 < k) (hkS : k ≤ S.length)
    (hS : ∀ s ∈ S, byteChannels s) :
    posterize_image (posterize_image pixels w h T S k) w h S S k =
      posterize_image pixels w h T S k := by
  have hk0 : 0 < k := by omega
  unfold posterize_image
  apply List.map_congr_left
  intro i hi
  have hi' : i < w * h := List.mem_range.mp hi
  rw [getD_map_range _ _ _ _ hi']
  set x := pixels.getD i 0 with hx
  -- the inner posterize produces the exact packed byte color of entry idx
  set idx := palette_select T k x with hidx_def
  have hidx : idx < S.length := lt_of_lt_of_le (palette_select_lt T k x hk0) hkS
  have hmem : S.getD idx default ∈ S := by
    rw [List.getD_eq_getElem _ _ hidx]
    exact List.getElem_mem hidx
  obtain ⟨⟨m1, hm1, e1⟩, ⟨m2, hm2, e2⟩, ⟨m3, hm3, e3⟩⟩ := hS _ hmem
  have hentry : S.getD idx default = ⟨(m1 : ℚ), (m2 : ℚ), (m3 : ℚ)⟩ := by
    cases hsd : S.getD idx default
    simp only [hsd] at e1 e2 e3
    simp [e1, e2, e3]
  have hinner : posterize_pixel T S k x = pack_pixel m1 m2 m3 :=
    posterize_pixel_byte T S k x m1 m2 m3 hm1 hm2 hm3 hentry
  rw [hinner]
  -- the outer posterize re-selects an entry at zero perceptual distance
  have hextract : extractPoint (pack_pixel m1 m2 m3) = S.getD idx default := by
    rw [hentry, extractPoint, chanR_pack _ _ _ (by omega) (by omega) (by omega),
      chanG_pack _ _ _ (by omega) (by omega) (by omega),
      chanB_pack _ _ _ (by omega) (by omega) (by omega)]
  set p := extractPoint (pack_pixel m1 m2 m3) with hp
  set j := find_nearest_perceptual p S k with hj
  have hsel : palette_select S k (pack_pixel m1 m2 m3) = j := by
    rw [palette_select, if_pos hk]
  have hjlt : j < S.length := lt_of_lt_of_le (find_nearest_perceptual_lt p S k hk0) hkS
  have hpeq : p = S.getD idx default := hextract
  have hidxk : idx < k := palette_select_lt T k x hk0
  have hmin := find_nearest_perceptual_min p S k idx hidxk
  have hzero : perceptual_distance_sq p (S.getD j default) = 0 := by
    refine le_antisymm ?_ (perceptual_distance_sq_nonneg _ _)
    calc perceptual_distance_sq p (S.getD j default)
        ≤ perceptual_distance_sq p (S.getD idx default) := hmin
      _ = 0 := by rw [← hpeq, perceptual_distance_sq_self]
  have hjeq : S.getD j default = ⟨(m1 : ℚ), (m2 : ℚ), (m3 : ℚ)⟩ := by
    rw [← (perceptual_distance_sq_eq_zero _ _ hzero), hpeq, hentry]
  exact posterize_pixel_byte S S k (pack_pixel m1 m2 m3) m1 m2 m3 hm1 hm2 hm3
    (by rw [hsel, hjeq])

/-- Claim C2, witness for the amended theorem: a concrete direct-path
instance (`palette_size = 4097`) with integer palette entries. -/
theorem c2_witness :
    posterize_image
        (posterize_image [0] 1 1 (List.replicate 4097 ⟨0, 0, 0⟩)
          (List.replicate 4097 (⟨7, 8, 9⟩ : ColorPoint3f)) 4097) 1 1
        (List.replicate 4097 (⟨7, 8, 9⟩ : ColorPoint3f))
        (List.replicate 4097 (⟨7, 8, 9⟩ : ColorPoint3f)) 4097 =
      posterize_image [0] 1 1 (List.replicate 4097 ⟨0, 0, 0⟩)
        (List.replicate 4097 (⟨7, 8, 9⟩ : ColorPoint3f)) 4097 :=
  c2_amended [0] 1 1 (List.replicate 4097 ⟨0, 0, 0⟩)
    (List.replicate 4097 (⟨7, 8, 9⟩ : ColorPoint3f)) 4097 (by norm_num)
    (by simp only [List.length_replicate, le_refl])
    (by
      intro s hs
      rw [List.eq_of_mem_replicate hs]
      exact ⟨⟨7, by norm_num, rfl⟩, ⟨8, by norm_num, rfl⟩, ⟨9, by norm_num, rfl⟩⟩)

theorem clamp255_bounds (x : ℤ) : 0 ≤ clamp255 x ∧ clamp255 x ≤ 255 := by
  rw [clamp255]
  split_ifs <;> omega

theorem resynthR_le (T S : List ColorPoint3f) (k pixel : ℕ) :
    resynthR T S k pixel ≤ 255 := by
  simp only [resynthR]
  exact Int.toNat_le.mpr (clamp255_bounds _).2

theorem resynthG_le (T S : List ColorPoint3f) (k pixel : ℕ) :
    resynthG T S k pixel ≤ 255 := by
  simp only [resynthG]
  exact Int.toNat_le.mpr (clamp255_bounds _).2

theorem resynthB_le (T S : List ColorPoint3f) (k pixel : ℕ) :
    resynthB T S k pixel ≤ 255 := by
  simp only [resynthB]
  exact Int.toNat_le.mpr (clamp255_bounds _).2

/-- With identical target and source palettes the residual arithmetic of
`resynthesize_image` cancels exactly: the output pixel equals the input
pixel (in the exact-arithmetic model), for any palette size and on both
code paths. -/
theorem resynthesize_pixel_same_palette (P : List ColorPoint3f) (k : ℕ)
    (pixel : ℕ) (hpix : pixel < 2 ^ 24) :
    resynthesize_pixel P P k pixel = pixel := by
  have echan : ∀ (t : ℚ) (c : ℕ), ratTrunc (t + ((c : ℚ) - t) + 1/2) = c := by
    intro t c
    rw [show t + ((c : ℚ) - t) + 1/2 = (c : ℚ) + 1/2 by ring,
      ratTrunc_natCast_add_half]
  have hR : resynthR P P k pixel = chanR pixel := by
    simp only [resynthR, echan]
    rw [clamp255_of_range _ (by positivity)
      (by exact_mod_cast Nat.lt_succ_iff.mp (chanR_lt pixel))]
    simp
  have hG : resynthG P P k pixel = chanG pixel := by
    simp only [resynthG, echan]
    rw [clamp255_of_range _ (by positivity)
      (by exact_mod_cast Nat.lt_succ_iff.mp (chanG_lt pixel))]
    simp
  have hB : resynthB P P k pixel = chanB pixel := by
    simp only [resynthB, echan]
    rw [clamp255_of_range _ (by positivity)
      (by exact_mod_cast Nat.lt_succ_iff.mp (chanB_lt pixel))]
    simp
  rw [resynthesize_pixel, hR, hG, hB, pack_unpack pixel hpix]

/-- `resynthesize_image` with identical palettes is the identity on
images whose pixels have a clear top byte. -/
theorem resynthesize_image_same_palette (pixels : List ℕ) (w h : ℕ)
    (P : List ColorPoint3f) (k : ℕ) (hlen : pixels.length = w * h)
    (hpix : ∀ p ∈ pixels, p < 2 ^ 24) :
    resynthesize_image pixels w h P P k = pixels := by
  apply List.ext_getElem
  · simp [resynthesize_image, hlen]
  · intro n h1 h2
    have hn : n < w * h := by simpa [resynthesize_image] using h1
    have hmem : pixels.getD n 0 ∈ pixels := by
      rw [List.getD_eq_getElem _ _ h2]
      exact List.getElem_mem h2
    calc (resynthesize_image pixels w h P P k)[n] =
        (resynthesize_image pixels w h P P k).getD n 0 :=
          (List.getD_eq_getElem _ _ h1).symm
      _ = resynthesize_pixel P P k (pixels.getD n 0) :=
          resynthesize_image_getD pixels w h P P k n hn
      _ = pixels.getD n 0 :=
          resynthesize_pixel_same_palette P k _ (hpix _ hmem)
      _ = pixels[n] := List.getD_eq_getElem _ _ h2

/-- Claim C3: with identical target and source palettes,
`resynthesize_image` returns the input exactly at every pixel whose color
is a palette entry, every pixel differs from the input by at most 1 per
channel (here: by 0, since in exact arithmetic the residual cancels at
every pixel), and the single-color image with palettes `[c]` is returned
exactly (spec scenario S5). -/
theorem c3_theorem (pixels : List ℕ) (w h : ℕ) (P : List ColorPoint3f)
    (k : ℕ) (hlen : pixels.length = w * h) (hpix : ∀ p ∈ pixels, p < 2 ^ 24) :
    (∀ i < w * h, extractPoint (pixels.getD i 0) ∈ P →
      (resynthesize_image pixels w h P P k).getD i 0 = pixels.getD i 0) ∧
    (∀ i < w * h,
      ((chanR ((resynthesize_image pixels w h P P k).getD i 0) : ℤ) -
        (chanR (pixels.getD i 0) : ℤ)).natAbs ≤ 1 ∧
      ((chanG ((resynthesize_image pixels w h P P k).getD i 0) : ℤ) -
        (chanG (pixels.getD i 0) : ℤ)).natAbs ≤ 1 ∧
      ((chanB ((resynthesize_image pixels w h P P k).getD i 0) : ℤ) -
        (chanB (pixels.getD i 0) : ℤ)).natAbs ≤ 1) ∧
    (∀ (c w' h' : ℕ), c < 2 ^ 24 →
      resynthesize_image (List.replicate (w' * h') c) w' h'
        [extractPoint c] [extractPoint c] 1 = List.replicate (w' * h') c) := by
  have hid := resynthesize_image_same_palette pixels w h P k hlen hpix
  refine ⟨?_, ?_, ?_⟩
  · intro i _ _
    rw [hid]
  · intro i _
    rw [hid]
    simp
  · intro c w' h' hc
    exact resynthesize_image_same_palette _ _ _ _ _ (by simp)
      (by intro p hp; rw [List.eq_of_mem_replicate hp]; exact hc)

/-- Claim C3, witness: a concrete two-pixel image and palette. -/
theorem c3_witness :
    (∀ i < 2 * 1, extractPoint (([66051, 197379] : List ℕ).getD i 0) ∈
        ([⟨1, 2, 3⟩] : List ColorPoint3f) →
      (resynthesize_image [66051, 197379] 2 1 [⟨1, 2, 3⟩] [⟨1, 2, 3⟩] 1).getD i 0 =
        ([66051, 197379] : List ℕ).getD i 0) ∧
    (∀ i < 2 * 1,
      ((chanR ((resynthesize_image [66051, 197379] 2 1 [⟨1, 2, 3⟩] [⟨1, 2, 3⟩] 1).getD i 0) : ℤ) -
        (chanR (([66051, 197379] : List ℕ).getD i 0) : ℤ)).natAbs ≤ 1 ∧
      ((chanG ((resynthesize_image [66051, 197379] 2 1 [⟨1, 2, 3⟩] [⟨1, 2, 3⟩] 1).getD i 0) : ℤ) -
        (chanG (([66051, 197379] : List ℕ).getD i 0) : ℤ)).natAbs ≤ 1 ∧
      ((chanB ((resynthesize_image [66051, 197379] 2 1 [⟨1, 2, 3⟩] [⟨1, 2, 3⟩] 1).getD i 0) : ℤ) -
        (chanB (([66051, 197379] : List ℕ).getD i 0) : ℤ)).natAbs ≤ 1) ∧
    (∀ (c w' h' : ℕ), c < 2 ^ 24 →
      resynthesize_image (List.replicate (w' * h') c) w' h'
        [extractPoint c] [extractPoint c] 1 = List.replicate (w' * h') c) :=
  c3_theorem [66051, 197379] 2 1 [⟨1, 2, 3⟩] 1 (by norm_num)
    (by intro p hp; simp only [List.mem_cons, List.mem_singleton] at hp;
        rcases hp with rfl | hp; · norm_num
        rcases hp with rfl | hp; · norm_num
        simp at hp)

theorem chanR_mod (x : ℕ) : chanR (x % 2 ^ 24) = chanR x := by
  simp only [chanR, Nat.shiftRight_eq_div_pow]
  omega

theorem chanG_mod (x : ℕ) : chanG (x % 2 ^ 24) = chanG x := by
  simp only [chanG, Nat.shiftRight_eq_div_pow]
  omega

theorem chanB_mod (x : ℕ) : chanB (x % 2 ^ 24) = chanB x := by
  simp only [chanB]
  omega

/-- The per-pixel remap of `resynthesize_image` reads the input pixel only
through its low 24 bits: any alpha tag in the top byte is ignored. -/
theorem resynthesize_pixel_mod (T S : List ColorPoint3f) (k : ℕ) (x : ℕ) :
    resynthesize_pixel T S k (x % 2 ^ 24) = resynthesize_pixel T S k x := by
  simp only [resynthesize_pixel, resynthR, resynthG, resynthB,
    palette_select, lut_entry, extractPoint, chanR_mod, chanG_mod, chanB_mod]

/-- Claim C9: every pixel word written by `resynthesize_image` has its top
8 bits zero (an input alpha tag is discarded — the whole computation reads
only the low 24 bits of the input, last conjunct), and the three 8-bit
fields hold exactly the clamped channel values `resynthR/G/B`, each at
most 255, so no channel overflows into an adjacent field. -/
theorem c9_theorem (T S : List ColorPoint3f) (k : ℕ) (pixels : List ℕ)
    (w h i : ℕ) (hi : i < w * h) :
    ((resynthesize_image pixels w h T S k).getD i 0) >>> 24 = 0 ∧
    chanR ((resynthesize_image pixels w h T S k).getD i 0) =
      resynthR T S k (pixels.getD i 0) ∧
    chanG ((resynthesize_image pixels w h T S k).getD i 0) =
      resynthG T S k (pixels.getD i 0) ∧
    chanB ((resynthesize_image pixels w h T S k).getD i 0) =
      resynthB T S k (pixels.getD i 0) ∧
    resynthR T S k (pixels.getD i 0) ≤ 255 ∧
    resynthG T S k (pixels.getD i 0) ≤ 255 ∧
    resynthB T S k (pixels.getD i 0) ≤ 255 ∧
    resynthesize_image pixels w h T S k =
      resynthesize_image (pixels.map (· % 2 ^ 24)) w h T S k := by
  have hR := resynthR_le T S k (pixels.getD i 0)
  have hG := resynthG_le T S k (pixels.getD i 0)
  have hB := resynthB_le T S k (pixels.getD i 0)
  rw [resynthesize_image_getD pixels w h T S k i hi]
  refine ⟨?_, ?_, ?_, ?_, hR, hG, hB, ?_⟩
  · rw [resynthesize_pixel, shiftRight24_eq_zero_iff]
    exact pack_pixel_lt _ _ _ (by omega) (by omega) (by omega)
  · rw [resynthesize_pixel]
    exact chanR_pack _ _ _ (by omega) (by omega) (by omega)
  · rw [resynthesize_pixel]
    exact chanG_pack _ _ _ (by omega) (by omega) (by omega)
  · rw [resynthesize_pixel]
    exact chanB_pack _ _ _ (by omega) (by omega) (by omega)
  · unfold resynthesize_image
    apply List.map_congr_left
    intro j _
    by_cases hjl : j < pixels.length
    · rw [List.getD_eq_getElem _ _ hjl,
        List.getD_eq_getElem _ _ (by simpa using hjl), List.getElem_map,
        resynthesize_pixel_mod]
    · rw [List.getD_eq_default _ _ (by omega),
        List.getD_eq_default _ _ (by simpa using hjl)]

/-- Claim C9, witness: a one-pixel image carrying the alpha tag
`0xFF000000`. -/
theorem c9_witness :
    ((resynthesize_image [4278190080] 1 1 [⟨1, 2, 3⟩] [⟨1, 2, 3⟩] 1).getD 0 0) >>> 24 = 0 ∧
    chanR ((resynthesize_image [4278190080] 1 1 [⟨1, 2, 3⟩] [⟨1, 2, 3⟩] 1).getD 0 0) =
      resynthR [⟨1, 2, 3⟩] [⟨1, 2, 3⟩] 1 (([4278190080] : List ℕ).getD 0 0) ∧
    chanG ((resynthesize_image [4278190080] 1 1 [⟨1, 2, 3⟩] [⟨1, 2, 3⟩] 1).getD 0 0) =
      resynthG [⟨1, 2, 3⟩] [⟨1, 2, 3⟩] 1 (([4278190080] : List ℕ).getD 0 0) ∧
    chanB ((resynthesize_image [4278190080] 1 1 [⟨1, 2, 3⟩] [⟨1, 2, 3⟩] 1).getD 0 0) =
      resynthB [⟨1, 2, 3⟩] [⟨1, 2, 3⟩] 1 (([4278190080] : List ℕ).getD 0 0) ∧
    resynthR [⟨1, 2, 3⟩] [⟨1, 2, 3⟩] 1 (([4278190080] : List ℕ).getD 0 0) ≤ 255 ∧
    resynthG [⟨1, 2, 3⟩] [⟨1, 2, 3⟩] 1 (([4278190080] : List ℕ).getD 0 0) ≤ 255 ∧
    resynthB [⟨1, 2, 3⟩] [⟨1, 2, 3⟩] 1 (([4278190080] : List ℕ).getD 0 0) ≤ 255 ∧
    resynthesize_image [4278190080] 1 1 [⟨1, 2, 3⟩] [⟨1, 2, 3⟩] 1 =
      resynthesize_image (([4278190080] : List ℕ).map (· % 2 ^ 24)) 1 1
        [⟨1, 2, 3⟩] [⟨1, 2, 3⟩] 1 :=
  c9_theorem [⟨1, 2, 3⟩] [⟨1, 2, 3⟩] 1 [4278190080] 1 1 0 (by norm_num)

theorem distance_squared_nonneg (a b : ColorPoint3f) :
    0 ≤ distance_squared a b := by
  simp only [distance_squared]
  nlinarith [mul_self_nonneg (a.c1 - b.c1), mul_self_nonneg (a.c2 - b.c2),
    mul_self_nonneg (a.c3 - b.c3)]

theorem distance_squared_self (a : ColorPoint3f) : distance_squared a a = 0 := by
  simp only [distance_squared]
  ring

theorem abs_sub_components_le (a b : ColorPoint3f) (eps : ℚ) (heps : 0 ≤ eps)
    (h : distance_squared a b ≤ eps * eps) :
    |a.c1 - b.c1| ≤ eps ∧ |a.c2 - b.c2| ≤ eps ∧ |a.c3 - b.c3| ≤ eps := by
  simp only [distance_squared] at h
  refine ⟨abs_le.mpr ⟨?_, ?_⟩, abs_le.mpr ⟨?_, ?_⟩, abs_le.mpr ⟨?_, ?_⟩⟩ <;>
    nlinarith [mul_self_nonneg (a.c1 - b.c1), mul_self_nonneg (a.c2 - b.c2),
      mul_self_nonneg (a.c3 - b.c3), sq_nonneg (a.c1 - b.c1 + eps),
      sq_nonneg (a.c1 - b.c1 - eps), sq_nonneg (a.c2 - b.c2 + eps),
      sq_nonneg (a.c2 - b.c2 - eps), sq_nonneg (a.c3 - b.c3 + eps),
      sq_nonneg (a.c3 - b.c3 - eps)]

theorem grid_create_cell_size (points : List ColorPoint3f) (eps : ℚ) :
    (grid_create points eps).cell_size = eps := rfl

theorem grid_size_pos (points : List ColorPoint3f) (eps : ℚ) :
    0 < (grid_create points eps).grid_size := by
  simp only [grid_create]
  have h1 : (1 : ℤ) ≤ min 256 (max 1 ⌈(max (max ((qListMax (points.map (·.c1)) -
      qListMin (points.map (·.c1))) + 2 * eps) ((qListMax (points.map (·.c2)) -
      qListMin (points.map (·.c2))) + 2 * eps)) ((qListMax (points.map (·.c3)) -
      qListMin (points.map (·.c3))) + 2 * eps)) / eps⌉) :=
    le_min (by norm_num) (le_max_left _ _)
  omega

theorem grid_coord_nonneg (val min_val cell_size : ℚ) (gs : ℕ) :
    0 ≤ grid_coord val min_val cell_size gs :=
  le_max_left _ _

theorem grid_coord_lt (val min_val cell_size : ℚ) (gs : ℕ) (hgs : 0 < gs) :
    grid_coord val min_val cell_size gs < gs := by
  have h2 : min (⌊(val - min_val) / cell_size⌋) ((gs : ℤ) - 1) ≤ (gs : ℤ) - 1 :=
    min_le_right _ _
  simp only [grid_coord]
  omega

theorem grid_coord_dist (u v min_val cs : ℚ) (gs : ℕ) (hcs : 0 < cs)
    (h : |u - v| ≤ cs) :
    grid_coord u min_val cs gs ≤ grid_coord v min_val cs gs + 1 ∧
    grid_coord v min_val cs gs ≤ grid_coord u min_val cs gs + 1 := by
  obtain ⟨h1, h2⟩ := abs_le.mp h
  have key : ∀ x y : ℚ, x - y ≤ cs →
      ⌊(x - min_val) / cs⌋ ≤ ⌊(y - min_val) / cs⌋ + 1 := by
    intro x y hxy
    have hdiv : (x - min_val) / cs ≤ (y - min_val) / cs + 1 := by
      have hrw : (y - min_val) / cs + 1 = (y - min_val + cs) / cs := by
        field_simp
      rw [hrw]
      exact (div_le_div_right hcs).mpr (by linarith)
    calc ⌊(x - min_val) / cs⌋ ≤ ⌊(y - min_val) / cs + 1⌋ := Int.floor_le_floor hdiv
      _ = ⌊(y - min_val) / cs⌋ + 1 := Int.floor_add_one _
  have k1 := key u v (by linarith)
  have k2 := key v u (by linarith)
  simp only [grid_coord]
  omega

theorem mem_neighbor_offsets (dx dy dz : ℤ) (hx : |dx| ≤ 1) (hy : |dy| ≤ 1)
    (hz : |dz| ≤ 1) : (dx, dy, dz) ∈ neighbor_offsets := by
  have hx' : dx = -1 ∨ dx = 0 ∨ dx = 1 := by
    obtain ⟨a, b⟩ := abs_le.mp hx; omega
  have hy' : dy = -1 ∨ dy = 0 ∨ dy = 1 := by
    obtain ⟨a, b⟩ := abs_le.mp hy; omega
  have hz' : dz = -1 ∨ dz = 0 ∨ dz = 1 := by
    obtain ⟨a, b⟩ := abs_le.mp hz; omega
  rcases hx' with rfl | rfl | rfl <;> rcases hy' with rfl | rfl | rfl <;>
    rcases hz' with rfl | rfl | rfl <;> decide

theorem neighbor_offsets_nodup : neighbor_offsets.Nodup := by decide

theorem grid_index_inj (gs : ℕ) (x y z x' y' z' : ℕ) (hy : y < gs) (hz : z < gs)
    (hy' : y' < gs) (hz' : z' < gs)
    (h : grid_index x y z gs = grid_index x' y' z' gs) :
    x = x' ∧ y = y' ∧ z = z' := by
  have hgs : 0 < gs := by omega
  simp only [grid_index] at h
  have hz0 : (x * gs * gs + y * gs + z) % gs = z := by
    rw [show x * gs * gs + y * gs + z = z + (x * gs + y) * gs by ring,
      Nat.add_mul_mod_self_right, Nat.mod_eq_of_lt hz]
  have hz0' : (x' * gs * gs + y' * gs + z') % gs = z' := by
    rw [show x' * gs * gs + y' * gs + z' = z' + (x' * gs + y') * gs by ring,
      Nat.add_mul_mod_self_right, Nat.mod_eq_of_lt hz']
  have hzz : z = z' := by rw [← hz0, ← hz0', h]
  have hd : (x * gs * gs + y * gs + z) / gs = x * gs + y := by
    rw [show x * gs * gs + y * gs + z = z + (x * gs + y) * gs by ring,
      Nat.add_mul_div_right _ _ hgs, Nat.div_eq_of_lt hz]
    omega
  have hd' : (x' * gs * gs + y' * gs + z') / gs = x' * gs + y' := by
    rw [show x' * gs * gs + y' * gs + z' = z' + (x' * gs + y') * gs by ring,
      Nat.add_mul_div_right _ _ hgs, Nat.div_eq_of_lt hz']
    omega
  have hxy : x * gs + y = x' * gs + y' := by rw [← hd, ← hd', h]
  have hy0 : (x * gs + y) % gs = y := by
    rw [show x * gs + y = y + x * gs by ring, Nat.add_mul_mod_self_right,
      Nat.mod_eq_of_lt hy]
  have hy0' : (x' * gs + y') % gs = y' := by
    rw [show x' * gs + y' = y' + x' * gs by ring, Nat.add_mul_mod_self_right,
      Nat.mod_eq_of_lt hy']
  have hyy : y = y' := by rw [← hy0, ← hy0', hxy]
  refine ⟨?_, hyy, hzz⟩
  subst hyy hzz
  have := Nat.eq_of_mul_eq_mul_right hgs (by omega : x * gs = x' * gs)
  omega

theorem neighbor_cells_complete (g : SpatialGrid) (cx cy cz qx qy qz : ℤ)
    (hx1 : qx ≤ cx + 1) (hx2 : cx ≤ qx + 1) (hy1 : qy ≤ cy + 1)
    (hy2 : cy ≤ qy + 1) (hz1 : qz ≤ cz + 1) (hz2 : cz ≤ qz + 1)
    (h0x : 0 ≤ qx) (hltx : qx < (g.grid_size : ℤ)) (h0y : 0 ≤ qy)
    (hlty : qy < (g.grid_size : ℤ)) (h0z : 0 ≤ qz)
    (hltz : qz < (g.grid_size : ℤ)) :
    grid_index qx.toNat qy.toNat qz.toNat g.grid_size ∈
      neighbor_cells g cx cy cz := by
  apply List.mem_filterMap.mpr
  refine ⟨(qx - cx, qy - cy, qz - cz),
    mem_neighbor_offsets _ _ _ (abs_le.mpr ⟨by omega, by omega⟩)
      (abs_le.mpr ⟨by omega, by omega⟩) (abs_le.mpr ⟨by omega, by omega⟩), ?_⟩
  dsimp only
  rw [show cx + (qx - cx) = qx from by ring, show cy + (qy - cy) = qy from by ring,
    show cz + (qz - cz) = qz from by ring]
  rw [if_neg (by push_neg; exact ⟨h0x, hltx, h0y, hlty, h0z, hltz⟩)]

theorem neighbor_cells_nodup (g : SpatialGrid) (cx cy cz : ℤ) :
    (neighbor_cells g cx cy cz).Nodup := by
  apply List.Nodup.filterMap ?_ neighbor_offsets_nodup
  rintro ⟨dx, dy, dz⟩ ⟨dx', dy', dz'⟩ b hb hb'
  dsimp only at hb hb'
  split at hb
  · simp at hb
  · split at hb'
    · simp at hb'
    · rename_i hg hg'
      push_neg at hg hg'
      obtain ⟨g1, g2, g3, g4, g5, g6⟩ := hg
      obtain ⟨g1', g2', g3', g4', g5', g6'⟩ := hg'
      rw [Option.mem_def, Option.some_inj] at hb hb'
      rw [← hb'] at hb
      obtain ⟨e1, e2, e3⟩ := grid_index_inj g.grid_size _ _ _ _ _ _
        ((Int.toNat_lt g3).mpr g4) ((Int.toNat_lt g5).mpr g6)
        ((Int.toNat_lt g3').mpr g4') ((Int.toNat_lt g5').mpr g6') hb
      have e1' : cx + dx = cx + dx' := by omega
      have e2' : cy + dy = cy + dy' := by omega
      have e3' : cz + dz = cz + dz' := by omega
      simp only [Prod.mk.injEq]
      omega

theorem mem_cellOccupants (g : SpatialGrid) (points : List ColorPoint3f)
    (cidx j : ℕ) :
    j ∈ cellOccupants g points cidx ↔
      j < points.length ∧ pointCell g (points.getD j default) = cidx := by
  simp [cellOccupants, List.mem_filter, List.mem_range]

theorem grid_range_query_mem (points : List ColorPoint3f) (eps : ℚ)
    (heps : 0 < eps) (i j : ℕ) :
    j ∈ grid_range_query (grid_create points eps) points i (eps * eps) ↔
      (j < points.length ∧ distance_squared (points.getD i default)
        (points.getD j default) ≤ eps * eps) := by
  constructor
  · intro hj
    obtain ⟨cidx, hcidx, hjf⟩ := List.mem_flatMap.mp hj
    obtain ⟨hjo, hdist⟩ := List.mem_filter.mp hjf
    exact ⟨((mem_cellOccupants _ points cidx j).mp hjo).1,
      of_decide_eq_true hdist⟩
  · rintro ⟨hjn, hdist⟩
    have hgs := grid_size_pos points eps
    obtain ⟨h1, h2, h3⟩ := abs_sub_components_le _ _ eps (le_of_lt heps) hdist
    apply List.mem_flatMap.mpr
    refine ⟨pointCell (grid_create points eps) (points.getD j default), ?_, ?_⟩
    · have d1 := grid_coord_dist (points.getD j default).c1
        (points.getD i default).c1 (grid_create points eps).min_c1 eps
        (grid_create points eps).grid_size heps (by rw [abs_sub_comm]; exact h1)
      have d2 := grid_coord_dist (points.getD j default).c2
        (points.getD i default).c2 (grid_create points eps).min_c2 eps
        (grid_create points eps).grid_size heps (by rw [abs_sub_comm]; exact h2)
      have d3 := grid_coord_dist (points.getD j default).c3
        (points.getD i default).c3 (grid_create points eps).min_c3 eps
        (grid_create points eps).grid_size heps (by rw [abs_sub_comm]; exact h3)
      rw [← grid_create_cell_size points eps] at d1 d2 d3
      exact neighbor_cells_complete (grid_create points eps) _ _ _ _ _ _
        d1.1 d1.2 d2.1 d2.2 d3.1 d3.2
        (grid_coord_nonneg _ _ _ _)
        (grid_coord_lt _ _ _ _ hgs)
        (grid_coord_nonneg _ _ _ _)
        (grid_coord_lt _ _ _ _ hgs)
        (grid_coord_nonneg _ _ _ _)
        (grid_coord_lt _ _ _ _ hgs)
    · exact List.mem_filter.mpr
        ⟨(mem_cellOccupants _ points _ j).mpr ⟨hjn, rfl⟩, decide_eq_true hdist⟩

theorem grid_range_query_nodup (g : SpatialGrid) (points : List ColorPoint3f)
    (i : ℕ) (eps_sq : ℚ) : (grid_range_query g points i eps_sq).Nodup := by
  apply List.nodup_flatMap.mpr
  constructor
  · intro cidx _
    exact List.Nodup.filter _ (List.Nodup.filter _ (List.nodup_range _))
  · apply (neighbor_cells_nodup g _ _ _).imp
    intro c1 c2 hne
    simp only [Function.onFun]
    rw [List.disjoint_left]
    intro w hw1 hw2
    have m1 := ((mem_cellOccupants g points c1 w).mp
      (List.mem_filter.mp hw1).1).2
    have m2 := ((mem_cellOccupants g points c2 w).mp
      (List.mem_filter.mp hw2).1).2
    exact hne (m1 ▸ m2 ▸ rfl)

theorem bruteNeighbors_mem (points : List ColorPoint3f) (eps_sq : ℚ)
    (i j : ℕ) :
    j ∈ bruteNeighbors points eps_sq i ↔
      j < points.length ∧ distance_squared (points.getD i default)
        (points.getD j default) ≤ eps_sq := by
  simp [bruteNeighbors, List.mem_filter, List.mem_range]

theorem bruteNeighbors_nodup (points : List ColorPoint3f) (eps_sq : ℚ)
    (i : ℕ) : (bruteNeighbors points eps_sq i).Nodup :=
  List.Nodup.filter _ (List.nodup_range _)

theorem grid_range_query_perm (points : List ColorPoint3f) (eps : ℚ)
    (heps : 0 < eps) (i : ℕ) :
    (grid_range_query (grid_create points eps) points i (eps * eps)).Perm
      (bruteNeighbors points (eps * eps) i) := by
  rw [List.perm_ext_iff_of_nodup (grid_range_query_nodup _ points i _)
    (bruteNeighbors_nodup points _ i)]
  intro j
  rw [grid_range_query_mem points eps heps i j, bruteNeighbors_mem]

theorem grid_range_query_length (points : List ColorPoint3f) (eps : ℚ)
    (heps : 0 < eps) (i : ℕ) :
    (grid_range_query (grid_create points eps) points i (eps * eps)).length =
      (bruteNeighbors points (eps * eps) i).length :=
  (grid_range_query_perm points eps heps i).length_eq

/-- Claim C7: for every point set and `eps > 0`, the grid-accelerated
range query returns exactly the brute-force set
`{j : dist(points[i], points[j]) ≤ eps}` — as a duplicate-free
permutation of it — and includes `i` itself.  The theorem holds for every
grid size, in particular when the per-dimension cell count is clamped to
256: clamping the cell coordinate is monotone and 1-Lipschitz, so two
points within `eps` still land in clamped cells that differ by at most 1
per axis. -/
theorem c7_theorem (points : List ColorPoint3f) (eps : ℚ) (i : ℕ)
    (heps : 0 < eps) (hi : i < points.length) :
    (grid_range_query (grid_create points eps) points i (eps * eps)).Perm
      (bruteNeighbors points (eps * eps) i) ∧
    i ∈ grid_range_query (grid_create points eps) points i (eps * eps) := by
  refine ⟨grid_range_query_perm points eps heps i, ?_⟩
  rw [grid_range_query_mem points eps heps i i]
  refine ⟨hi, ?_⟩
  rw [distance_squared_self]
  positivity

/-- Claim C7, witness: a two-point set whose bounding box forces the
256-cell clamp (`max_range / eps = 10002`). -/
theorem c7_witness :
    (grid_range_query (grid_create [⟨0, 0, 0⟩, ⟨10000, 0, 0⟩] 1)
        [⟨0, 0, 0⟩, ⟨10000, 0, 0⟩] 0 (1 * 1)).Perm
      (bruteNeighbors [⟨0, 0, 0⟩, ⟨10000, 0, 0⟩] (1 * 1) 0) ∧
    0 ∈ grid_range_query (grid_create [⟨0, 0, 0⟩, ⟨10000, 0, 0⟩] 1)
      [⟨0, 0, 0⟩, ⟨10000, 0, 0⟩] 0 (1 * 1) :=
  c7_theorem [⟨0, 0, 0⟩, ⟨10000, 0, 0⟩] 1 0 (by norm_num) (by norm_num)

theorem nearCorePoint_of_core (points : List ColorPoint3f) (eps_sq : ℚ)
    (heps : 0 ≤ eps_sq) (min_pts : ℤ) (j : ℕ) (hj : j < points.length)
    (hcore : isCorePoint points eps_sq min_pts j) :
    nearCorePoint points eps_sq min_pts j :=
  ⟨j, hj, hcore, by rw [distance_squared_self]; exact heps⟩

theorem isCore_iff_rq_length (points : List ColorPoint3f) (eps : ℚ)
    (heps : 0 < eps) (min_pts : ℤ) (q : ℕ) :
    (min_pts ≤ ((grid_range_query (grid_create points eps) points q
      (eps * eps)).length : ℤ)) ↔
      isCorePoint points (eps * eps) min_pts q := by
  rw [grid_range_query_length points eps heps q]
  exact Iff.rfl

theorem dbscan_enqueue_sub (labels : ℕ → ℤ) :
    ∀ (nbrs : List ℕ) (st : List ℕ × (ℕ → Bool)) (x : ℕ),
      x ∈ (dbscan_enqueue labels nbrs st).1 → x ∈ st.1 ∨ x ∈ nbrs := by
  intro nbrs
  induction nbrs with
  | nil =>
    intro st x hx
    exact Or.inl (by simpa [dbscan_enqueue] using hx)
  | cons nb rest ih =>
    intro st x hx
    rw [show dbscan_enqueue labels (nb :: rest) st =
      dbscan_enqueue labels rest (dbscan_enqueue_step labels st nb) from rfl] at hx
    rcases ih _ x hx with h | h
    · by_cases hc : ¬ st.2 nb ∧
        (labels nb = DBSCAN_UNCLASSIFIED ∨ labels nb = DBSCAN_NOISE)
      · rw [dbscan_enqueue_step, if_pos hc] at h
        rcases List.mem_append.mp h with h' | h'
        · exact Or.inl h'
        · simp only [List.mem_singleton] at h'
          exact Or.inr (h' ▸ List.mem_cons_self nb rest)
      · rw [dbscan_enqueue_step, if_neg hc] at h
        exact Or.inl h
    · exact Or.inr (List.mem_cons_of_mem _ h)

theorem dbscan_seed_fold_sub (i : ℕ) :
    ∀ (nbrs : List ℕ) (st : List ℕ × (ℕ → Bool)) (x : ℕ),
      x ∈ (nbrs.foldl (dbscan_seed_step i) st).1 → x ∈ st.1 ∨ x ∈ nbrs := by
  intro nbrs
  induction nbrs with
  | nil =>
    intro st x hx
    exact Or.inl (by simpa using hx)
  | cons nb rest ih =>
    intro st x hx
    rw [List.foldl_cons] at hx
    rcases ih _ x hx with h | h
    · by_cases hc : nb ≠ i ∧ ¬ st.2 nb
      · rw [dbscan_seed_step, if_pos hc] at h
        rcases List.mem_append.mp h with h' | h'
        · exact Or.inl h'
        · simp only [List.mem_singleton] at h'
          exact Or.inr (h' ▸ List.mem_cons_self nb rest)
      · rw [dbscan_seed_step, if_neg hc] at h
        exact Or.inl h
    · exact Or.inr (List.mem_cons_of_mem _ h)

theorem dbscan_seed_sub (i : ℕ) (nbrs : List ℕ) (x : ℕ)
    (hx : x ∈ (dbscan_seed i nbrs).1) : x ∈ nbrs := by
  rcases dbscan_seed_fold_sub i nbrs ([], fun _ => false) x hx with h | h
  · simp at h
  · exact h

theorem updf_compose_spec (points : List ColorPoint3f) (eps_sq : ℚ)
    (min_pts : ℤ) (cid : ℕ) (labels : ℕ → ℤ) (q : ℕ) (res : ℕ → ℤ)
    (hq : q < points.length ∧ nearCorePoint points eps_sq min_pts q)
    (hql : labels q = DBSCAN_UNCLASSIFIED ∨ labels q = DBSCAN_NOISE) (j : ℕ)
    (h : res j = updf labels q (cid : ℤ) j ∨
      (res j = (cid : ℤ) ∧ j < points.length ∧
        nearCorePoint points eps_sq min_pts j ∧
        (updf labels q (cid : ℤ) j = DBSCAN_UNCLASSIFIED ∨
          updf labels q (cid : ℤ) j = DBSCAN_NOISE))) :
    res j = labels j ∨
      (res j = (cid : ℤ) ∧ j < points.length ∧
        nearCorePoint points eps_sq min_pts j ∧
        (labels j = DBSCAN_UNCLASSIFIED ∨ labels j = DBSCAN_NOISE)) := by
  by_cases hjq : j = q
  · subst hjq
    rcases h with hL | hR
    · right
      rw [updf_same] at hL
      exact ⟨hL, hq.1, hq.2, hql⟩
    · exact Or.inr ⟨hR.1, hq.1, hq.2, hql⟩
  · rw [updf_other _ _ _ _ hjq] at h
    exact h

/-- Master invariant of the cluster-expansion loop of `dbscan_cluster`:
provided every queued point lies within `eps` of some core point, the
expansion changes a label only to the current cluster id, only for points
within `eps` of a core point, and only from `UNCLASSIFIED` or `NOISE`.
Holds for every fuel value. -/
theorem dbscan_expand_spec (points : List ColorPoint3f) (eps : ℚ)
    (heps : 0 < eps) (min_pts : ℤ) (cid : ℕ) :
    ∀ (fuel : ℕ) (labels : ℕ → ℤ) (inq : ℕ → Bool) (queue : List ℕ),
    (∀ x ∈ queue, x < points.length ∧
      nearCorePoint points (eps * eps) min_pts x) →
    ∀ j, (dbscan_expand points (grid_create points eps) (eps * eps) min_pts
        cid fuel labels inq queue).1 j = labels j ∨
      ((dbscan_expand points (grid_create points eps) (eps * eps) min_pts
          cid fuel labels inq queue).1 j = (cid : ℤ) ∧
        j < points.length ∧ nearCorePoint points (eps * eps) min_pts j ∧
        (labels j = DBSCAN_UNCLASSIFIED ∨ labels j = DBSCAN_NOISE)) := by
  intro fuel
  induction fuel with
  | zero =>
    intro labels inq queue hq j
    left; rfl
  | succ fuel ih =>
    intro labels inq queue hq j
    cases queue with
    | nil => left; rfl
    | cons q rest =>
      have hqmem := hq q (List.mem_cons_self q rest)
      have hrest : ∀ x ∈ rest, x < points.length ∧
          nearCorePoint points (eps * eps) min_pts x :=
        fun x hx => hq x (List.mem_cons_of_mem _ hx)
      by_cases h1 : labels q = DBSCAN_NOISE
      · have heq : dbscan_expand points (grid_create points eps) (eps * eps)
            min_pts cid (fuel + 1) labels inq (q :: rest) =
            dbscan_expand points (grid_create points eps) (eps * eps)
              min_pts cid fuel (updf labels q (cid : ℤ)) inq rest := by
          simp only [dbscan_expand]
          rw [if_pos h1]
        rw [heq]
        exact updf_compose_spec points (eps * eps) min_pts cid labels q _
          hqmem (Or.inr h1) j (ih (updf labels q (cid : ℤ)) inq rest hrest j)
      · by_cases h2 : labels q = DBSCAN_UNCLASSIFIED
        · by_cases h3 : min_pts ≤ ((grid_range_query (grid_create points eps)
              points q (eps * eps)).length : ℤ)
          · have heq : dbscan_expand points (grid_create points eps)
                (eps * eps) min_pts cid (fuel + 1) labels inq (q :: rest) =
                dbscan_expand points (grid_create points eps) (eps * eps)
                  min_pts cid fuel (updf labels q (cid : ℤ))
                  (dbscan_enqueue (updf labels q (cid : ℤ))
                    (grid_range_query (grid_create points eps) points q
                      (eps * eps)) (rest, inq)).2
                  (dbscan_enqueue (updf labels q (cid : ℤ))
                    (grid_range_query (grid_create points eps) points q
                      (eps * eps)) (rest, inq)).1 := by
              simp only [dbscan_expand]
              rw [if_neg h1, if_neg (by simpa using h2), if_pos h3]
            rw [heq]
            have hcoreq : isCorePoint points (eps * eps) min_pts q :=
              (isCore_iff_rq_length points eps heps min_pts q).mp h3
            have hnew : ∀ x ∈ (dbscan_enqueue (updf labels q (cid : ℤ))
                (grid_range_query (grid_create points eps) points q
                  (eps * eps)) (rest, inq)).1,
                x < points.length ∧
                  nearCorePoint points (eps * eps) min_pts x := by
              intro x hx
              rcases dbscan_enqueue_sub _ _ _ x hx with h | h
              · exact hrest x h
              · obtain ⟨hxn, hxd⟩ :=
                  (grid_range_query_mem points eps heps q x).mp h
                exact ⟨hxn, q, hqmem.1, hcoreq, hxd⟩
            exact updf_compose_spec points (eps * eps) min_pts cid labels q _
              hqmem (Or.inl h2) j (ih _ _ _ hnew j)
          · have heq : dbscan_expand points (grid_create points eps)
                (eps * eps) min_pts cid (fuel + 1) labels inq (q :: rest) =
                dbscan_expand points (grid_create points eps) (eps * eps)
                  min_pts cid fuel (updf labels q (cid : ℤ)) inq rest := by
              simp only [dbscan_expand]
              rw [if_neg h1, if_neg (by simpa using h2), if_neg h3]
            rw [heq]
            exact updf_compose_spec points (eps * eps) min_pts cid labels q _
              hqmem (Or.inl h2) j (ih (updf labels q (cid : ℤ)) inq rest hrest j)
        · have heq : dbscan_expand points (grid_create points eps) (eps * eps)
              min_pts cid (fuel + 1) labels inq (q :: rest) =
              dbscan_expand points (grid_create points eps) (eps * eps)
                min_pts cid fuel labels inq rest := by
            simp only [dbscan_expand]
            rw [if_neg h1, if_pos (by simpa using h2)]
          rw [heq]
          exact ih labels inq rest hrest j

theorem dbscan_cluster_eq_fold (points : List ColorPoint3f) (eps : ℚ)
    (min_pts : ℤ) (labels0 : ℕ → ℤ) (h : points.length ≠ 0) :
    dbscan_cluster points eps min_pts labels0 =
      dbscan_fold points eps min_pts labels0 points.length := by
  simp only [dbscan_cluster, dbscan_fold]
  rw [if_neg h]

theorem dbscan_step_eq_skip (points : List ColorPoint3f) (g : SpatialGrid)
    (eps_sq : ℚ) (min_pts : ℤ) (st : (ℕ → ℤ) × ℕ) (i : ℕ)
    (h : st.1 i ≠ DBSCAN_UNCLASSIFIED) :
    dbscan_step points g eps_sq min_pts st i = st := by
  simp only [dbscan_step]
  rw [if_pos h]

theorem dbscan_step_eq_noise (points : List ColorPoint3f) (g : SpatialGrid)
    (eps_sq : ℚ) (min_pts : ℤ) (st : (ℕ → ℤ) × ℕ) (i : ℕ)
    (h1 : st.1 i = DBSCAN_UNCLASSIFIED)
    (h2 : ((grid_range_query g points i eps_sq).length : ℤ) < min_pts) :
    dbscan_step points g eps_sq min_pts st i = (updf st.1 i DBSCAN_NOISE, st.2) := by
  simp only [dbscan_step]
  rw [if_neg (by simpa using h1), if_pos h2]

theorem dbscan_step_eq_cluster (points : List ColorPoint3f) (g : SpatialGrid)
    (eps_sq : ℚ) (min_pts : ℤ) (st : (ℕ → ℤ) × ℕ) (i : ℕ)
    (h1 : st.1 i = DBSCAN_UNCLASSIFIED)
    (h2 : ¬ ((grid_range_query g points i eps_sq).length : ℤ) < min_pts) :
    dbscan_step points g eps_sq min_pts st i =
      ((dbscan_expand points g eps_sq min_pts st.2 (2 * points.length + 1)
          (updf st.1 i (st.2 : ℤ))
          (dbscan_seed i (grid_range_query g points i eps_sq)).2
          (dbscan_seed i (grid_range_query g points i eps_sq)).1).1,
        st.2 + 1) := by
  simp only [dbscan_step]
  rw [if_neg (by simpa using h1), if_neg h2]

set_option maxHeartbeats 1000000 in
/-- Master invariant of the main loop of `dbscan_cluster` after `m ≤ n`
iterations: every in-range label is `UNCLASSIFIED`, or `NOISE` on a
non-core point, or a cluster id in `[0, cluster_id)` on a point within
`eps` of a core point; every cluster id below the counter is inhabited;
and no index already visited is still `UNCLASSIFIED`. -/
theorem dbscan_fold_inv (points : List ColorPoint3f) (eps : ℚ)
    (min_pts : ℤ) (labels0 : ℕ → ℤ) (heps : 0 < eps) :
    ∀ m, m ≤ points.length →
    (∀ j, j < points.length →
      ((dbscan_fold points eps min_pts labels0 m).1 j = DBSCAN_UNCLASSIFIED ∨
       ((dbscan_fold points eps min_pts labels0 m).1 j = DBSCAN_NOISE ∧
         ¬ isCorePoint points (eps * eps) min_pts j) ∨
       (0 ≤ (dbscan_fold points eps min_pts labels0 m).1 j ∧
         (dbscan_fold points eps min_pts labels0 m).1 j <
           ((dbscan_fold points eps min_pts labels0 m).2 : ℤ) ∧
         nearCorePoint points (eps * eps) min_pts j))) ∧
    (∀ c : ℕ, c < (dbscan_fold points eps min_pts labels0 m).2 →
      ∃ j, j < points.length ∧
        (dbscan_fold points eps min_pts labels0 m).1 j = (c : ℤ)) ∧
    (∀ j, j < m → j < points.length →
      (dbscan_fold points eps min_pts labels0 m).1 j ≠ DBSCAN_UNCLASSIFIED) := by
  intro m
  induction m with
  | zero =>
    intro _
    refine ⟨?_, ?_, ?_⟩
    · intro j hj
      left
      simp only [dbscan_fold, List.range_zero, List.foldl_nil]
      rw [if_pos hj]
    · intro c hc
      simp only [dbscan_fold, List.range_zero, List.foldl_nil] at hc
      omega
    · intro j hj
      omega
  | succ m ih =>
    intro hm1
    have hmlt : m < points.length := hm1
    obtain ⟨IH1, IH2, IH3⟩ := ih (le_of_lt hmlt)
    have hstep : dbscan_fold points eps min_pts labels0 (m + 1) =
        dbscan_step points (grid_create points eps) (eps * eps) min_pts
          (dbscan_fold points eps min_pts labels0 m) m := by
      rw [dbscan_fold, dbscan_fold, List.range_succ, List.foldl_append,
        List.foldl_cons, List.foldl_nil]
    set st := dbscan_fold points eps min_pts labels0 m with hst
    rw [hstep]
    by_cases hskip : st.1 m ≠ DBSCAN_UNCLASSIFIED
    · rw [dbscan_step_eq_skip _ _ _ _ _ _ hskip]
      refine ⟨IH1, IH2, ?_⟩
      intro j hj hjn
      rcases Nat.lt_succ_iff_lt_or_eq.mp hj with h | rfl
      · exact IH3 j h hjn
      · exact hskip
    · push_neg at hskip
      by_cases hnc : ((grid_range_query (grid_create points eps) points m
          (eps * eps)).length : ℤ) < min_pts
      · rw [dbscan_step_eq_noise _ _ _ _ _ _ hskip hnc]
        dsimp only
        have hnotcore : ¬ isCorePoint points (eps * eps) min_pts m := by
          intro hcore
          exact absurd ((isCore_iff_rq_length points eps heps min_pts m).mpr
            hcore) (by omega)
        refine ⟨?_, ?_, ?_⟩
        · intro j hj
          by_cases hjm : j = m
          · subst hjm
            right; left
            exact ⟨updf_same _ _ _, hnotcore⟩
          · rw [updf_other _ _ _ _ hjm]
            exact IH1 j hj
        · intro c hc
          obtain ⟨j, hjn, hjc⟩ := IH2 c hc
          refine ⟨j, hjn, ?_⟩
          have hjm : j ≠ m := by
            intro heq
            rw [heq, hskip] at hjc
            simp only [DBSCAN_UNCLASSIFIED] at hjc
            omega
          rw [updf_other _ _ _ _ hjm]
          exact hjc
        · intro j hj hjn
          rcases Nat.lt_succ_iff_lt_or_eq.mp hj with h | rfl
          · by_cases hjm : j = m
            · subst hjm
              rw [updf_same]
              simp [DBSCAN_NOISE, DBSCAN_UNCLASSIFIED]
            · rw [updf_other _ _ _ _ hjm]
              exact IH3 j h hjn
          · rw [updf_same]
            simp [DBSCAN_NOISE, DBSCAN_UNCLASSIFIED]
      · rw [dbscan_step_eq_cluster _ _ _ _ _ _ hskip hnc]
        dsimp only
        have hcorem : isCorePoint points (eps * eps) min_pts m :=
          (isCore_iff_rq_length points eps heps min_pts m).mp (by omega)
        have hqueue : ∀ x ∈ (dbscan_seed m (grid_range_query
            (grid_create points eps) points m (eps * eps))).1,
            x < points.length ∧ nearCorePoint points (eps * eps) min_pts x := by
          intro x hx
          have hxm := dbscan_seed_sub _ _ _ hx
          obtain ⟨hxn, hxd⟩ := (grid_range_query_mem points eps heps m x).mp hxm
          exact ⟨hxn, m, hmlt, hcorem, hxd⟩
        have hspec := dbscan_expand_spec points eps heps min_pts st.2
          (2 * points.length + 1) (updf st.1 m (st.2 : ℤ))
          (dbscan_seed m (grid_range_query (grid_create points eps) points m
            (eps * eps))).2
          (dbscan_seed m (grid_range_query (grid_create points eps) points m
            (eps * eps))).1 hqueue
        set labels2 := (dbscan_expand points (grid_create points eps)
          (eps * eps) min_pts st.2 (2 * points.length + 1)
          (updf st.1 m (st.2 : ℤ))
          (dbscan_seed m (grid_range_query (grid_create points eps) points m
            (eps * eps))).2
          (dbscan_seed m (grid_range_query (grid_create points eps) points m
            (eps * eps))).1).1 with hlab2
        have hnearm : nearCorePoint points (eps * eps) min_pts m :=
          nearCorePoint_of_core points (eps * eps) (by positivity) min_pts m
            hmlt hcorem
        refine ⟨?_, ?_, ?_⟩
        · intro j hj
          rcases hspec j with hL | hR
          · by_cases hjm : j = m
            · subst hjm
              rw [hL, updf_same]
              right; right
              exact ⟨Int.natCast_nonneg _, by push_cast; omega, hnearm⟩
            · rw [hL, updf_other _ _ _ _ hjm]
              rcases IH1 j hj with h | h | h
              · exact Or.inl h
              · exact Or.inr (Or.inl h)
              · exact Or.inr (Or.inr ⟨h.1, by push_cast; push_cast at h; omega,
                  h.2.2⟩)
          · right; right
            refine ⟨by rw [hR.1]; exact Int.natCast_nonneg _, ?_, hR.2.2.1⟩
            rw [hR.1]
            push_cast
            omega
        · intro c hc
          rcases Nat.lt_succ_iff_lt_or_eq.mp hc with hlt | rfl
          · obtain ⟨j, hjn, hjc⟩ := IH2 c hlt
            have hjm : j ≠ m := by
              intro heq
              rw [heq, hskip] at hjc
              simp only [DBSCAN_UNCLASSIFIED] at hjc
              omega
            refine ⟨j, hjn, ?_⟩
            rcases hspec j with hL | hR
            · rw [hL, updf_other _ _ _ _ hjm]
              exact hjc
            · exfalso
              have h4 := hR.2.2.2
              rw [updf_other _ _ _ _ hjm, hjc] at h4
              simp only [DBSCAN_UNCLASSIFIED, DBSCAN_NOISE] at h4
              omega
          · refine ⟨m, hmlt, ?_⟩
            rcases hspec m with hL | hR
            · rw [hL, updf_same]
            · exact hR.1
        · intro j hj hjn
          rcases Nat.lt_succ_iff_lt_or_eq.mp hj with h | heq
          · rcases hspec j with hL | hR
            · by_cases hjm : j = m
              · rw [hL, hjm, updf_same]
                simp only [DBSCAN_UNCLASSIFIED]
                omega
              · rw [hL, updf_other _ _ _ _ hjm]
                exact IH3 j h hjn
            · rw [hR.1]
              simp only [DBSCAN_UNCLASSIFIED]
              omega
          · rcases hspec j with hL | hR
            · rw [hL, heq, updf_same]
              simp only [DBSCAN_UNCLASSIFIED]
              omega
            · rw [hR.1]
              simp only [DBSCAN_UNCLASSIFIED]
              omega

/-- Claim C6: for a non-empty point set and `eps > 0`, `dbscan_cluster`
leaves no label `UNCLASSIFIED`: every label is `NOISE` or lies in
`[0, num_clusters)` where `num_clusters` is the returned count, and
`num_clusters` equals `max(labels) + 1` (witnessed by a label equal to
`num_clusters - 1`, all labels being smaller), or `0` with all labels
`NOISE`. -/
theorem c6_theorem (points : List ColorPoint3f) (eps : ℚ) (min_pts : ℤ)
    (labels0 : ℕ → ℤ) (heps : 0 < eps) (hn : points.length ≠ 0) :
    (∀ i, i < points.length →
      (dbscan_cluster points eps min_pts labels0).1 i = DBSCAN_NOISE ∨
      (0 ≤ (dbscan_cluster points eps min_pts labels0).1 i ∧
        (dbscan_cluster points eps min_pts labels0).1 i <
          ((dbscan_cluster points eps min_pts labels0).2 : ℤ))) ∧
    (∀ i, i < points.length →
      (dbscan_cluster points eps min_pts labels0).1 i ≠ DBSCAN_UNCLASSIFIED) ∧
    ((dbscan_cluster points eps min_pts labels0).2 = 0 →
      ∀ i, i < points.length →
        (dbscan_cluster points eps min_pts labels0).1 i = DBSCAN_NOISE) ∧
    (0 < (dbscan_cluster points eps min_pts labels0).2 →
      ∃ i, i < points.length ∧
        (dbscan_cluster points eps min_pts labels0).1 i =
          ((dbscan_cluster points eps min_pts labels0).2 : ℤ) - 1) := by
  rw [dbscan_cluster_eq_fold points eps min_pts labels0 hn]
  obtain ⟨I1, I2, I3⟩ := dbscan_fold_inv points eps min_pts labels0 heps
    points.length (le_refl _)
  refine ⟨?_, ?_, ?_, ?_⟩
  · intro i hi
    rcases I1 i hi with h | h | h
    · exact absurd h (I3 i hi hi)
    · exact Or.inl h.1
    · exact Or.inr ⟨h.1, h.2.1⟩
  · intro i hi
    exact I3 i hi hi
  · intro hzero i hi
    rcases I1 i hi with h | h | h
    · exact absurd h (I3 i hi hi)
    · exact h.1
    · rw [hzero] at h
      exfalso
      have := h.2.1
      simp at this
      omega
  · intro hpos
    obtain ⟨j, hjn, hjc⟩ :=
      I2 ((dbscan_fold points eps min_pts labels0 points.length).2 - 1)
        (by omega)
    refine ⟨j, hjn, ?_⟩
    rw [hjc]
    push_cast [Nat.cast_sub (by omega : 1 ≤ (dbscan_fold points eps min_pts
      labels0 points.length).2)]
    ring

/-- Claim C6, witness: three clusterable points and one outlier. -/
theorem c6_witness :
    (∀ i, i < ([⟨0, 0, 0⟩, ⟨1, 0, 0⟩, ⟨50, 0, 0⟩] : List ColorPoint3f).length →
      (dbscan_cluster [⟨0, 0, 0⟩, ⟨1, 0, 0⟩, ⟨50, 0, 0⟩] 2 2 (fun _ => -5)).1 i =
          DBSCAN_NOISE ∨
      (0 ≤ (dbscan_cluster [⟨0, 0, 0⟩, ⟨1, 0, 0⟩, ⟨50, 0, 0⟩] 2 2
          (fun _ => -5)).1 i ∧
        (dbscan_cluster [⟨0, 0, 0⟩, ⟨1, 0, 0⟩, ⟨50, 0, 0⟩] 2 2
            (fun _ => -5)).1 i <
          ((dbscan_cluster [⟨0, 0, 0⟩, ⟨1, 0, 0⟩, ⟨50, 0, 0⟩] 2 2
            (fun _ => -5)).2 : ℤ))) ∧
    (∀ i, i < ([⟨0, 0, 0⟩, ⟨1, 0, 0⟩, ⟨50, 0, 0⟩] : List ColorPoint3f).length →
      (dbscan_cluster [⟨0, 0, 0⟩, ⟨1, 0, 0⟩, ⟨50, 0, 0⟩] 2 2 (fun _ => -5)).1 i ≠
        DBSCAN_UNCLASSIFIED) ∧
    ((dbscan_cluster [⟨0, 0, 0⟩, ⟨1, 0, 0⟩, ⟨50, 0, 0⟩] 2 2 (fun _ => -5)).2 = 0 →
      ∀ i, i < ([⟨0, 0, 0⟩, ⟨1, 0, 0⟩, ⟨50, 0, 0⟩] : List ColorPoint3f).length →
        (dbscan_cluster [⟨0, 0, 0⟩, ⟨1, 0, 0⟩, ⟨50, 0, 0⟩] 2 2 (fun _ => -5)).1 i =
          DBSCAN_NOISE) ∧
    (0 < (dbscan_cluster [⟨0, 0, 0⟩, ⟨1, 0, 0⟩, ⟨50, 0, 0⟩] 2 2 (fun _ => -5)).2 →
      ∃ i, i < ([⟨0, 0, 0⟩, ⟨1, 0, 0⟩, ⟨50, 0, 0⟩] : List ColorPoint3f).length ∧
        (dbscan_cluster [⟨0, 0, 0⟩, ⟨1, 0, 0⟩, ⟨50, 0, 0⟩] 2 2 (fun _ => -5)).1 i =
          ((dbscan_cluster [⟨0, 0, 0⟩, ⟨1, 0, 0⟩, ⟨50, 0, 0⟩] 2 2
            (fun _ => -5)).2 : ℤ) - 1) :=
  c6_theorem [⟨0, 0, 0⟩, ⟨1, 0, 0⟩, ⟨50, 0, 0⟩] 2 2 (fun _ => -5)
    (by norm_num) (by norm_num)

/-- Claim C5: after `dbscan_cluster` (with `eps > 0`), every point with at
least `min_pts` brute-force neighbours within `eps` (counting itself)
receives a non-`NOISE` cluster label, and every point with fewer than
`min_pts` such neighbours and no core point within `eps` receives
`NOISE`. -/
theorem c5_theorem (points : List ColorPoint3f) (eps : ℚ) (min_pts : ℤ)
    (labels0 : ℕ → ℤ) (heps : 0 < eps) :
    (∀ i, i < points.length → isCorePoint points (eps * eps) min_pts i →
      0 ≤ (dbscan_cluster points eps min_pts labels0).1 i ∧
      (dbscan_cluster points eps min_pts labels0).1 i ≠ DBSCAN_NOISE) ∧
    (∀ i, i < points.length → ¬ isCorePoint points (eps * eps) min_pts i →
      ¬ nearCorePoint points (eps * eps) min_pts i →
      (dbscan_cluster points eps min_pts labels0).1 i = DBSCAN_NOISE) := by
  by_cases hn : points.length = 0
  · exact ⟨fun i hi => by omega, fun i hi => by omega⟩
  rw [dbscan_cluster_eq_fold points eps min_pts labels0 hn]
  obtain ⟨I1, I2, I3⟩ := dbscan_fold_inv points eps min_pts labels0 heps
    points.length (le_refl _)
  constructor
  · intro i hi hcore
    rcases I1 i hi with h | h | h
    · exact absurd h (I3 i hi hi)
    · exact absurd hcore h.2
    · refine ⟨h.1, ?_⟩
      have := h.1
      simp only [DBSCAN_NOISE]
      omega
  · intro i hi hncore hnnear
    rcases I1 i hi with h | h | h
    · exact absurd h (I3 i hi hi)
    · exact h.1
    · exact absurd h.2.2 hnnear

/-- Claim C5, witness: a chain of three close points and one far outlier
(`eps = 3/2`, `min_pts = 2`). -/
theorem c5_witness :
    (∀ i, i < ([⟨0, 0, 0⟩, ⟨1, 0, 0⟩, ⟨2, 0, 0⟩, ⟨100, 0, 0⟩] :
        List ColorPoint3f).length →
      isCorePoint [⟨0, 0, 0⟩, ⟨1, 0, 0⟩, ⟨2, 0, 0⟩, ⟨100, 0, 0⟩]
        (3/2 * (3/2)) 2 i →
      0 ≤ (dbscan_cluster [⟨0, 0, 0⟩, ⟨1, 0, 0⟩, ⟨2, 0, 0⟩, ⟨100, 0, 0⟩]
        (3/2) 2 (fun _ => -9)).1 i ∧
      (dbscan_cluster [⟨0, 0, 0⟩, ⟨1, 0, 0⟩, ⟨2, 0, 0⟩, ⟨100, 0, 0⟩]
        (3/2) 2 (fun _ => -9)).1 i ≠ DBSCAN_NOISE) ∧
    (∀ i, i < ([⟨0, 0, 0⟩, ⟨1, 0, 0⟩, ⟨2, 0, 0⟩, ⟨100, 0, 0⟩] :
        List ColorPoint3f).length →
      ¬ isCorePoint [⟨0, 0, 0⟩, ⟨1, 0, 0⟩, ⟨2, 0, 0⟩, ⟨100, 0, 0⟩]
        (3/2 * (3/2)) 2 i →
      ¬ nearCorePoint [⟨0, 0, 0⟩, ⟨1, 0, 0⟩, ⟨2, 0, 0⟩, ⟨100, 0, 0⟩]
        (3/2 * (3/2)) 2 i →
      (dbscan_cluster [⟨0, 0, 0⟩, ⟨1, 0, 0⟩, ⟨2, 0, 0⟩, ⟨100, 0, 0⟩]
        (3/2) 2 (fun _ => -9)).1 i = DBSCAN_NOISE) :=
  c5_theorem [⟨0, 0, 0⟩, ⟨1, 0, 0⟩, ⟨2, 0, 0⟩, ⟨100, 0, 0⟩] (3/2) 2
    (fun _ => -9) (by norm_num)

theorem block_enqueue_fold_mem (points : List ColorPoint3f) (eps_sq : ℚ)
    (q : ℕ) :
    ∀ (l : List ℕ) (st : List ℕ × (ℕ → ℤ)) (x : ℕ),
      x ∈ (l.foldl (block_enqueue_step points eps_sq q) st).1 →
      x ∈ st.1 ∨ st.2 x = -2 := by
  intro l
  induction l with
  | nil => intro st x hx; exact Or.inl (by simpa using hx)
  | cons k rest ih =>
    intro st x hx
    rw [List.foldl_cons] at hx
    by_cases hc : st.2 k = -2 ∧
        distance_squared (points.getD q default) (points.getD k default) ≤ eps_sq
    · rcases ih _ x hx with h | h
      · rw [block_enqueue_step, if_pos hc] at h
        dsimp only at h
        rcases List.mem_append.mp h with h' | h'
        · exact Or.inl h'
        · simp only [List.mem_singleton] at h'
          exact Or.inr (h' ▸ hc.1)
      · rw [block_enqueue_step, if_pos hc] at h
        dsimp only at h
        by_cases hxk : x = k
        · exact Or.inr (hxk ▸ hc.1)
        · rw [updf_other _ _ _ _ hxk] at h
          exact Or.inr h
    · rcases ih _ x hx with h | h
      · rw [block_enqueue_step, if_neg hc] at h
        exact Or.inl h
      · rw [block_enqueue_step, if_neg hc] at h
        exact Or.inr h

theorem block_enqueue_fold_keep (points : List ColorPoint3f) (eps_sq : ℚ)
    (q : ℕ) :
    ∀ (l : List ℕ) (st : List ℕ × (ℕ → ℤ)) (j : ℕ), st.2 j ≠ -2 →
      (l.foldl (block_enqueue_step points eps_sq q) st).2 j = st.2 j := by
  intro l
  induction l with
  | nil => intro st j _; rfl
  | cons k rest ih =>
    intro st j hj
    rw [List.foldl_cons]
    by_cases hc : st.2 k = -2 ∧
        distance_squared (points.getD q default) (points.getD k default) ≤ eps_sq
    · have hjk : j ≠ k := by
        intro heq
        exact hj (heq ▸ hc.1)
      have hstep2 : (block_enqueue_step points eps_sq q st k).2 j = st.2 j := by
        rw [block_enqueue_step, if_pos hc]
        exact updf_other _ _ _ _ hjk
      rw [ih (block_enqueue_step points eps_sq q st k) j (by rw [hstep2]; exact hj),
        hstep2]
    · have hstep : block_enqueue_step points eps_sq q st k = st := by
        rw [block_enqueue_step, if_neg hc]
      rw [hstep]
      exact ih st j hj

theorem block_enqueue_fold_inv (points : List ColorPoint3f) (eps_sq : ℚ)
    (q : ℕ) (c : ℤ) (hc2 : c ≠ -2) :
    ∀ (l : List ℕ) (st : List ℕ × (ℕ → ℤ)),
      (∀ x ∈ st.1, st.2 x = -3 ∨ st.2 x = c) →
      ∀ x ∈ (l.foldl (block_enqueue_step points eps_sq q) st).1,
        (l.foldl (block_enqueue_step points eps_sq q) st).2 x = -3 ∨
        (l.foldl (block_enqueue_step points eps_sq q) st).2 x = c := by
  intro l
  induction l with
  | nil => intro st hst x hx; exact hst x (by simpa using hx)
  | cons k rest ih =>
    intro st hst x hx
    rw [List.foldl_cons] at hx ⊢
    refine ih _ ?_ x hx
    intro y hy
    by_cases hcd : st.2 k = -2 ∧
        distance_squared (points.getD q default) (points.getD k default) ≤ eps_sq
    · rw [block_enqueue_step, if_pos hcd] at hy ⊢
      dsimp only at hy ⊢
      by_cases hyk : y = k
      · rw [hyk, updf_same]
        exact Or.inl rfl
      · rw [updf_other _ _ _ _ hyk]
        rcases List.mem_append.mp hy with h' | h'
        · exact hst y h'
        · simp only [List.mem_singleton] at h'
          exact absurd h' hyk
    · rw [block_enqueue_step, if_neg hcd] at hy ⊢
      exact hst y hy

theorem block_seed_fold_keep (points : List ColorPoint3f) (eps_sq : ℚ)
    (i : ℕ) :
    ∀ (l : List ℕ) (st : List ℕ × (ℕ → ℤ)) (j : ℕ), st.2 j ≠ -2 →
      (l.foldl (block_seed_step points eps_sq i) st).2 j = st.2 j := by
  intro l
  induction l with
  | nil => intro st j _; rfl
  | cons k rest ih =>
    intro st j hj
    rw [List.foldl_cons]
    by_cases hc : k ≠ i ∧ st.2 k = -2 ∧
        distance_squared (points.getD i default) (points.getD k default) ≤ eps_sq
    · have hjk : j ≠ k := by
        intro heq
        exact hj (heq ▸ hc.2.1)
      have hstep2 : (block_seed_step points eps_sq i st k).2 j = st.2 j := by
        rw [block_seed_step, if_pos hc]
        exact updf_other _ _ _ _ hjk
      rw [ih (block_seed_step points eps_sq i st k) j (by rw [hstep2]; exact hj),
        hstep2]
    · have hstep : block_seed_step points eps_sq i st k = st := by
        rw [block_seed_step, if_neg hc]
      rw [hstep]
      exact ih st j hj

theorem block_seed_fold_inv (points : List ColorPoint3f) (eps_sq : ℚ)
    (i : ℕ) (c : ℤ) :
    ∀ (l : List ℕ) (st : List ℕ × (ℕ → ℤ)),
      (∀ x ∈ st.1, st.2 x = -3 ∨ st.2 x = c) →
      ∀ x ∈ (l.foldl (block_seed_step points eps_sq i) st).1,
        (l.foldl (block_seed_step points eps_sq i) st).2 x = -3 ∨
        (l.foldl (block_seed_step points eps_sq i) st).2 x = c := by
  intro l
  induction l with
  | nil => intro st hst x hx; exact hst x (by simpa using hx)
  | cons k rest ih =>
    intro st hst x hx
    rw [List.foldl_cons] at hx ⊢
    refine ih _ ?_ x hx
    intro y hy
    by_cases hcd : k ≠ i ∧ st.2 k = -2 ∧
        distance_squared (points.getD i default) (points.getD k default) ≤ eps_sq
    · rw [block_seed_step, if_pos hcd] at hy ⊢
      dsimp only at hy ⊢
      by_cases hyk : y = k
      · rw [hyk, updf_same]
        exact Or.inl rfl
      · rw [updf_other _ _ _ _ hyk]
        rcases List.mem_append.mp hy with h' | h'
        · exact hst y h'
        · simp only [List.mem_singleton] at h'
          exact absurd h' hyk
    · rw [block_seed_step, if_neg hcd] at hy ⊢
      exact hst y hy

theorem block_expand_noise_persist (points : List ColorPoint3f) (eps_sq : ℚ)
    (min_pts : ℤ) (cid : ℕ) :
    ∀ (fuel : ℕ) (labels : ℕ → ℤ) (queue : List ℕ) (j : ℕ),
      labels j = -1 →
      (∀ x ∈ queue, labels x = -3 ∨ labels x = (cid : ℤ)) →
      block_expand points eps_sq min_pts cid fuel labels queue j = -1 := by
  intro fuel
  induction fuel with
  | zero => intro labels queue j hj _; exact hj
  | succ fuel ih =>
    intro labels queue j hj hq
    cases queue with
    | nil => exact hj
    | cons q rest =>
      have hqlab := hq q (List.mem_cons_self q rest)
      have hqne : labels q ≠ -1 := by
        rcases hqlab with h | h
        · rw [h]; decide
        · rw [h]; omega
      have hjq : j ≠ q := by
        intro heq2
        exact hqne (heq2 ▸ hj)
      have hj1 : updf labels q (cid : ℤ) j = -1 := by
        rw [updf_other _ _ _ _ hjq]; exact hj
      have hrest1 : ∀ x ∈ rest,
          updf labels q (cid : ℤ) x = -3 ∨ updf labels q (cid : ℤ) x = (cid : ℤ) := by
        intro x hx
        by_cases hxq : x = q
        · rw [hxq, updf_same]; exact Or.inr rfl
        · rw [updf_other _ _ _ _ hxq]
          exact hq x (List.mem_cons_of_mem _ hx)
      by_cases hcore : min_pts ≤ (count_neighbors points q eps_sq : ℤ)
      · have heq : block_expand points eps_sq min_pts cid (fuel + 1) labels
            (q :: rest) =
            block_expand points eps_sq min_pts cid fuel
              (block_enqueue points eps_sq q (rest, updf labels q (cid : ℤ))).2
              (block_enqueue points eps_sq q
                (rest, updf labels q (cid : ℤ))).1 := by
          simp only [block_expand]
          rw [if_neg hqne, if_pos hcore]
        rw [heq]
        refine ih _ _ j ?_ ?_
        · rw [block_enqueue,
            block_enqueue_fold_keep points eps_sq q _ _ j
              (by dsimp only; rw [hj1]; decide)]
          exact hj1
        · intro x hx
          rw [block_enqueue] at hx ⊢
          exact block_enqueue_fold_inv points eps_sq q (cid : ℤ) (by omega)
            (List.range points.length) (rest, updf labels q (cid : ℤ))
            hrest1 x hx
      · have heq : block_expand points eps_sq min_pts cid (fuel + 1) labels
            (q :: rest) =
            block_expand points eps_sq min_pts cid fuel
              (updf labels q (cid : ℤ)) rest := by
          simp only [block_expand]
          rw [if_neg hqne, if_neg hcore]
        rw [heq]
        exact ih _ rest j hj1 hrest1

theorem block_step_eq_skip (points : List ColorPoint3f) (eps_sq : ℚ)
    (min_pts : ℤ) (st : (ℕ → ℤ) × ℕ) (i : ℕ) (h : st.1 i ≠ -2) :
    block_step points eps_sq min_pts st i = st := by
  simp only [block_step]
  rw [if_pos h]

theorem block_step_eq_noise (points : List ColorPoint3f) (eps_sq : ℚ)
    (min_pts : ℤ) (st : (ℕ → ℤ) × ℕ) (i : ℕ) (h1 : st.1 i = -2)
    (h2 : (count_neighbors points i eps_sq : ℤ) < min_pts) :
    block_step points eps_sq min_pts st i = (updf st.1 i (-1), st.2) := by
  simp only [block_step]
  rw [if_neg (by simpa using h1), if_pos h2]

theorem block_step_eq_cluster (points : List ColorPoint3f) (eps_sq : ℚ)
    (min_pts : ℤ) (st : (ℕ → ℤ) × ℕ) (i : ℕ) (h1 : st.1 i = -2)
    (h2 : ¬ (count_neighbors points i eps_sq : ℤ) < min_pts) :
    block_step points eps_sq min_pts st i =
      (block_expand points eps_sq min_pts st.2 (2 * points.length + 1)
        (block_seed points eps_sq i (updf st.1 i (st.2 : ℤ))).2
        (block_seed points eps_sq i (updf st.1 i (st.2 : ℤ))).1,
       st.2 + 1) := by
  simp only [block_step]
  rw [if_neg (by simpa using h1), if_neg h2]

theorem block_step_noise_persist (points : List ColorPoint3f) (eps_sq : ℚ)
    (min_pts : ℤ) (st : (ℕ → ℤ) × ℕ) (i j : ℕ) (hj : st.1 j = -1) :
    (block_step points eps_sq min_pts st i).1 j = -1 := by
  by_cases hskip : st.1 i ≠ -2
  · rw [block_step_eq_skip _ _ _ _ _ hskip]; exact hj
  · push_neg at hskip
    by_cases hnc : (count_neighbors points i eps_sq : ℤ) < min_pts
    · rw [block_step_eq_noise _ _ _ _ _ hskip hnc]
      dsimp only
      by_cases hji : j = i
      · rw [hji, updf_same]
      · rw [updf_other _ _ _ _ hji]; exact hj
    · rw [block_step_eq_cluster _ _ _ _ _ hskip hnc]
      dsimp only
      have hji : j ≠ i := by
        intro h
        rw [h, hskip] at hj
        exact absurd hj (by decide)
      have hj1 : updf st.1 i (st.2 : ℤ) j = -1 := by
        rw [updf_other _ _ _ _ hji]; exact hj
      refine block_expand_noise_persist points eps_sq min_pts st.2 _ _ _ j ?_ ?_
      · rw [block_seed,
          block_seed_fold_keep points eps_sq i _ _ j
            (by dsimp only; rw [hj1]; decide)]
        exact hj1
      · intro x hx
        rw [block_seed] at hx ⊢
        refine block_seed_fold_inv points eps_sq i (st.2 : ℤ)
          (List.range points.length) ([], updf st.1 i (st.2 : ℤ)) ?_ x hx
        intro y hy
        simp at hy

theorem block_fold_noise_persist (points : List ColorPoint3f) (eps_sq : ℚ)
    (min_pts : ℤ) :
    ∀ (l : List ℕ) (st : (ℕ → ℤ) × ℕ) (j : ℕ), st.1 j = -1 →
      (l.foldl (block_step points eps_sq min_pts) st).1 j = -1 := by
  intro l
  induction l with
  | nil => intro st j hj; exact hj
  | cons k rest ih =>
    intro st j hj
    rw [List.foldl_cons]
    exact ih _ j (block_step_noise_persist points eps_sq min_pts st k j hj)

theorem block_labels_noise_persist (points : List ColorPoint3f) (eps : ℚ)
    (min_pts : ℤ) (m j : ℕ) (hm : m ≤ points.length)
    (h : (block_labels_after points eps min_pts m).1 j = -1) :
    (block_dbscan_labels points eps min_pts).1 j = -1 := by
  rw [block_dbscan_labels, block_labels_after]
  rw [block_labels_after] at h
  have hn : points.length = m + (points.length - m) := by omega
  rw [hn, List.range_add, List.foldl_append]
  exact block_fold_noise_persist points (eps * eps) min_pts _ _ j h

set_option maxRecDepth 40000 in
/-- C4, counterexample. The spec claims that in the per-block DBSCAN of
`hybrid_cluster` a point first labelled NOISE that lies within `eps` of a
core point of a cluster expanded later in the same block ends with that
cluster's label. Concretely, for the four collinear points 0,1,2,3 with
`eps = 1` and `min_pts = 3`: point 0 is within `eps` of point 1; point 1
is a core point (3 neighbours); after the first outer iteration point 0 is
NOISE; the cluster containing point 1 (cluster 0) is expanded later; yet
the final label of point 0 is still NOISE (−1), not 0 — because the
expansion loops enqueue only UNCLASSIFIED (−2) points, never NOISE. -/
theorem c4_counterexample :
    distance_squared ⟨0, 0, 0⟩ ⟨1, 0, 0⟩ ≤ (1 : ℚ) * 1 ∧
    (3 : ℤ) ≤ (count_neighbors
      [⟨0, 0, 0⟩, ⟨1, 0, 0⟩, ⟨2, 0, 0⟩, ⟨3, 0, 0⟩] 1 ((1 : ℚ) * 1) : ℤ) ∧
    (block_labels_after
      [⟨0, 0, 0⟩, ⟨1, 0, 0⟩, ⟨2, 0, 0⟩, ⟨3, 0, 0⟩] 1 3 1).1 0 = -1 ∧
    (block_dbscan_labels
      [⟨0, 0, 0⟩, ⟨1, 0, 0⟩, ⟨2, 0, 0⟩, ⟨3, 0, 0⟩] 1 3).1 1 = 0 ∧
    (block_dbscan_labels
      [⟨0, 0, 0⟩, ⟨1, 0, 0⟩, ⟨2, 0, 0⟩, ⟨3, 0, 0⟩] 1 3).1 0 = -1 := by
  refine ⟨?_, ?_, ?_, ?_, ?_⟩ <;> with_unfolding_all decide

/-- C4, amended. In the per-block DBSCAN of `hybrid_cluster` the
expansion's enqueue loop only ever adds points that are currently
UNCLASSIFIED (label −2) — never NOISE — and consequently a point labelled
NOISE at any intermediate state of the outer loop keeps the NOISE label to
the very end of the block: NOISE points are never reclassified into a
cluster. (The popped-point NOISE-promotion branch in the code is
unreachable, since only UNCLASSIFIED points enter the queue.) -/
theorem c4_amended :
    (∀ (points : List ColorPoint3f) (eps_sq : ℚ) (q : ℕ)
        (st : List ℕ × (ℕ → ℤ)) (x : ℕ),
        x ∈ (block_enqueue points eps_sq q st).1 →
        x ∈ st.1 ∨ st.2 x = -2) ∧
    (∀ (points : List ColorPoint3f) (eps : ℚ) (min_pts : ℤ) (m j : ℕ),
        m ≤ points.length →
        (block_labels_after points eps min_pts m).1 j = -1 →
        (block_dbscan_labels points eps min_pts).1 j = -1) := by
  constructor
  · intro points eps_sq q st x hx
    exact block_enqueue_fold_mem points eps_sq q (List.range points.length)
      st x hx
  · intro points eps min_pts m j hm h
    exact block_labels_noise_persist points eps min_pts m j hm h

set_option maxRecDepth 40000 in
theorem c4_witness :
    ((0 : ℕ) ∈ ([] : List ℕ) ∨ ((fun _ => (-2 : ℤ)) 0 : ℤ) = -2) ∧
    (block_dbscan_labels
      [⟨0, 0, 0⟩, ⟨1, 0, 0⟩, ⟨2, 0, 0⟩, ⟨3, 0, 0⟩] 1 3).1 0 = -1 :=
  ⟨c4_amended.1 [⟨0, 0, 0⟩, ⟨1, 0, 0⟩, ⟨2, 0, 0⟩, ⟨3, 0, 0⟩] 1 1
      ([], fun _ => -2) 0 (by with_unfolding_all decide),
   c4_amended.2 [⟨0, 0, 0⟩, ⟨1, 0, 0⟩, ⟨2, 0, 0⟩, ⟨3, 0, 0⟩] 1 3 1 0
      (by with_unfolding_all decide) (by with_unfolding_all decide)⟩

/-- C8: on empty input, and for the k-means-based entry points also when
`k ≤ 0`, `kmeans_cluster`, `dbscan_cluster` and `hybrid_cluster` return 0
(zero iterations / zero clusters) and leave every output buffer
(centroids, assignments, labels) exactly as the caller passed it. -/
theorem c8_theorem (sqrtf : ℚ → ℚ) (points : List ColorPoint3f)
    (k max_iterations : ℤ) (thr : ℚ) (c0 : ℕ → ColorPoint3f)
    (a0 labels0 : ℕ → ℤ) (eps : ℚ) (min_pts : ℤ) (block_size : ℕ)
    (kmi : ℤ) (kthr : ℚ) (seed : ℕ) :
    ((points = [] ∨ k ≤ 0) →
      kmeans_cluster sqrtf points k max_iterations thr c0 a0 seed =
        (0, c0, a0)) ∧
    (points = [] →
      dbscan_cluster points eps min_pts labels0 = (labels0, 0)) ∧
    ((points = [] ∨ k ≤ 0) →
      hybrid_cluster sqrtf points k block_size eps min_pts kmi kthr c0 seed =
        (0, c0)) := by
  refine ⟨?_, ?_, ?_⟩
  · intro h
    simp only [kmeans_cluster]
    rw [if_pos (h.imp (fun hp => by rw [hp]; rfl) id)]
  · intro h
    simp only [dbscan_cluster]
    rw [if_pos (by rw [h]; rfl)]
  · intro h
    simp only [hybrid_cluster]
    rw [if_pos (h.imp (fun hp => by rw [hp]; rfl) id)]

theorem c8_witness :
    kmeans_cluster id [] 1 10 1 (fun _ => default) (fun _ => 0) 7 =
      (0, fun _ => default, fun _ => 0) ∧
    dbscan_cluster [] 1 3 (fun _ => 0) = (fun _ => 0, 0) ∧
    hybrid_cluster id [] 1 64 1 3 10 1 (fun _ => default) 7 =
      (0, fun _ => default) :=
  ⟨(c8_theorem id [] 1 10 1 (fun _ => default) (fun _ => 0) (fun _ => 0)
      1 3 64 10 1 7).1 (Or.inl rfl),
   (c8_theorem id [] 1 10 1 (fun _ => default) (fun _ => 0) (fun _ => 0)
      1 3 64 10 1 7).2.1 rfl,
   (c8_theorem id [] 1 10 1 (fun _ => default) (fun _ => 0) (fun _ => 0)
      1 3 64 10 1 7).2.2 (Or.inl rfl)⟩

/-- C10: on inputs too small to sample both epsilon estimators return the
fixed default `15.0` for every `sqrtf`, every seed and all point
coordinates — `dbscan_calculate_eps` whenever `n ≤ min_pts`, and
`hybrid_calculate_dbscan_eps` whenever `n ≤ block_size` — bypassing the
percentile computation and its clamp ranges. -/
theorem c10_theorem (sqrtf : ℚ → ℚ) (points : List ColorPoint3f)
    (min_pts sample_size : ℤ) (block_size : ℕ) (seed seed2 : ℕ) :
    (((points.length : ℤ) ≤ min_pts →
      dbscan_calculate_eps sqrtf points min_pts sample_size seed = 15)) ∧
    ((points.length ≤ block_size →
      hybrid_calculate_dbscan_eps sqrtf points block_size min_pts seed2 =
        15)) := by
  constructor
  · intro h
    simp only [dbscan_calculate_eps]
    rw [if_pos h]
  · intro h
    simp only [hybrid_calculate_dbscan_eps]
    rw [if_pos h]

theorem c10_witness :
    dbscan_calculate_eps id [⟨1, 2, 3⟩] 5 20 999 = 15 ∧
    hybrid_calculate_dbscan_eps id [⟨1, 2, 3⟩] 64 5 123 = 15 :=
  ⟨(c10_theorem id [⟨1, 2, 3⟩] 5 20 64 999 123).1 (by decide),
   (c10_theorem id [⟨1, 2, 3⟩] 5 20 64 999 123).2 (by decide)⟩
